import Mathlib

/-!
Verification development for the environment-secret resolution engine of
the MetalDeploy deployment orchestrator (`src/env_manager.py`).

The Python code is shallowly embedded: Python `dict`s become ordered
association lists (insertion order preserved, assignment overwrites in
place), Python strings become Lean `String`s processed through `List Char`
primitives that mirror the CPython semantics on ASCII data (the inputs the
engine handles), and the fallible remote executor becomes a function into
`Except`.  External library calls (`json.loads`, `yaml.safe_load`,
`base64.b64encode`) are modelled by executable Lean functions documented at
their definitions; `os.path.isfile` is modelled as constantly false since
the embedding carries no filesystem.
-/

namespace MetalDeploy

/-- Ordered association list modelling a Python `dict` with `String` keys and
values: iteration order is insertion order and assignment replaces in place. -/
abbrev Dict := List (String × String)

/-- Model of Python dict assignment `d[k] = v`: replace the first binding of
`k` in place, or append a new binding at the end. -/
def dinsert : Dict → String → String → Dict
  | [], k, v => [(k, v)]
  | p :: m, k, v => if p.1 = k then (k, v) :: m else p :: dinsert m k v

/-- Model of Python dict lookup `d.get(k)`: first binding wins. -/
def dlookup : Dict → String → Option String
  | [], _ => none
  | p :: m, k => if p.1 = k then some p.2 else dlookup m k

/-- Keys of a dict, in order. -/
def dkeys (m : Dict) : List String := m.map (fun p => p.1)

/-- ASCII whitespace recognised by Python `str.strip` / `\s` on the data this
engine processes (space, tab, newline, carriage return, vertical tab, form
feed; the unicode extras never occur in environment variable material). -/
def pyIsSpace (c : Char) : Bool :=
  c = ' ' || c = '\t' || c = '\n' || c = '\r' || c = '\x0b' || c = '\x0c'

/-- Model of Python `s.strip()` (ASCII whitespace). -/
def pyStripL (cs : List Char) : List Char :=
  ((cs.dropWhile pyIsSpace).reverse.dropWhile pyIsSpace).reverse

/-- String wrapper for `pyStripL`. -/
def pyStrip (s : String) : String := String.mk (pyStripL s.data)

/-- Model of Python `s.startswith(pre)`. -/
def pyStartswith (s pre : String) : Bool := pre.data.isPrefixOf s.data

/-- Model of Python `s.endswith(suf)`. -/
def pyEndswith (s suf : String) : Bool := suf.data.reverse.isPrefixOf s.data.reverse

/-- Model of Python `s[n:]`. -/
def pyDropn (s : String) (n : Nat) : String := String.mk (s.data.drop n)

/-- Model of Python `s[len(pre):]` as used after a successful `startswith`. -/
def pyDropPre (s pre : String) : String := pyDropn s pre.data.length

/-- Model of Python `c in s` for a single-character needle. -/
def pyContainsChar (s : String) (c : Char) : Bool := s.data.contains c

/-- ASCII upper-casing, the relevant fragment of Python `str.upper` here. -/
def pyUpper (s : String) : String := String.mk (s.data.map Char.toUpper)

/-- ASCII lower-casing, the relevant fragment of Python `str.lower` here. -/
def pyLower (s : String) : String := String.mk (s.data.map Char.toLower)

/-- Fuel-indexed core of Python `s.replace(pat, rep)`: leftmost,
non-overlapping.  Fuel is one step per character, always sufficient at the
wrapper's call; written with fuel to stay kernel-computable. -/
def replaceCore : Nat → List Char → List Char → List Char → List Char
  | 0, cs, _, _ => cs
  | _, [], _, _ => []
  | fuel + 1, c :: cs, pat, rep =>
    if pat.isPrefixOf (c :: cs) then
      rep ++ replaceCore fuel ((c :: cs).drop pat.length) pat rep
    else
      c :: replaceCore fuel cs pat rep

/-- Model of Python `s.replace(pat, rep)` for a non-empty pattern. -/
def pyReplace (s pat rep : String) : String :=
  String.mk (replaceCore (s.data.length + 1) s.data pat.data rep.data)

/-- Line separators recognised by Python `str.splitlines` on ASCII data. -/
def isLineSep (c : Char) : Bool := c = '\n' || c = '\x0b' || c = '\x0c'

/-- Core of Python `str.splitlines` (ASCII separators, `\r\n` fused). -/
def splitlinesCore : List Char → List Char → List (List Char)
  | [], acc => if acc.isEmpty then [] else [acc.reverse]
  | '\r' :: '\n' :: rest, acc => acc.reverse :: splitlinesCore rest []
  | '\r' :: rest, acc => acc.reverse :: splitlinesCore rest []
  | c :: rest, acc =>
    if isLineSep c then
      acc.reverse :: splitlinesCore rest []
    else
      splitlinesCore rest (c :: acc)

/-- Model of Python `s.splitlines()`. -/
def pySplitlines (s : String) : List (List Char) := splitlinesCore s.data []

/-- Model of Python `"\n".join(lines)`. -/
def joinNewline (lines : List (List Char)) : List Char :=
  (lines.intersperse ['\n']).flatten

/-- Characters matched by the key group `[A-Z0-9_]` of the ENV-format regex. -/
def isKeyChar (c : Char) : Bool :=
  ('A' ≤ c && c ≤ 'Z') || ('0' ≤ c && c ≤ '9') || c = '_'

/-- Characters matched by the delimiter class `[\s,]` of the ENV-format regex. -/
def isDelimChar (c : Char) : Bool := pyIsSpace c || c = ','

/-- Attempt to read `([A-Z0-9_]+)=` at the current position; on success return
the key and the remainder after the equals sign. -/
def tryKeyEq (cs : List Char) : Option (List Char × List Char) :=
  let run := cs.takeWhile isKeyChar
  if run.isEmpty then none
  else
    match cs.drop run.length with
    | '=' :: rest => some (run, rest)
    | _ => none

/-- Scan for the next occurrence of `[\s,]([A-Z0-9_]+)=`, mirroring how
`re.finditer` resumes after the previous match.  Returns the characters
scanned before the match (the raw value slice of the previous key, excluding
the delimiter that the next match consumes) and, if found, the next key with
the remainder after its equals sign.  Fuel is one unit per character. -/
def findNextMatch : Nat → List Char → List Char × Option (List Char × List Char)
  | 0, cs => (cs, none)
  | _, [] => ([], none)
  | fuel + 1, c :: rest =>
    if isDelimChar c then
      match tryKeyEq rest with
      | some (k, after) => ([], some (k, after))
      | none =>
        let r := findNextMatch fuel rest
        (c :: r.1, r.2)
    else
      let r := findNextMatch fuel rest
      (c :: r.1, r.2)

/-- Collect `(key, raw value slice)` pairs once the first key has matched;
each value slice runs to the start of the following match.  Fuel is one unit
per match. -/
def collectMatches : Nat → List Char → List Char → List (List Char × List Char)
  | 0, k, rest => [(k, rest)]
  | fuel + 1, k, rest =>
    match findNextMatch (rest.length + 1) rest with
    | (pre, none) => [(k, pre)]
    | (pre, some (k2, rest2)) => (k, pre) :: collectMatches fuel k2 rest2

/-- All matches of the ENV-format key regex over the cleaned content, paired
with their raw value slices, in source order (model of the `key_matches`
loop in `parse_all_in_one_secret`). -/
def envMatches (cs : List Char) : List (List Char × List Char) :=
  match tryKeyEq cs with
  | some (k, rest) => collectMatches (cs.length + 1) k rest
  | none =>
    match findNextMatch (cs.length + 1) cs with
    | (_, none) => []
    | (_, some (k, rest)) => collectMatches (cs.length + 1) k rest

/-- Model of Python `s.rstrip(" ,")`. -/
def rstripSpaceComma (cs : List Char) : List Char :=
  (cs.reverse.dropWhile (fun c => c = ' ' || c = ',')).reverse

/-- The double-quote character (escape form used throughout for clarity). -/
def quoteChar : Char := '\x22'

/-- The single-quote character. -/
def squoteChar : Char := '\x27'

/-- Post-processing of one raw ENV value slice: strip whitespace, strip
trailing spaces and commas, and optionally remove one pair of matching outer
quotes (model of the value handling in the ENV branch). -/
def envValue (strip_quotes : Bool) (raw : List Char) : List Char :=
  let value := rstripSpaceComma (pyStripL raw)
  if strip_quotes &&
      ((decide (value.head? = some quoteChar) && decide (value.getLast? = some quoteChar)) ||
       (decide (value.head? = some squoteChar) && decide (value.getLast? = some squoteChar))) then
    (value.drop 1).dropLast
  else
    value

/-- Ordered `(key, processed value)` pairs extracted by the ENV branch from
content whose comment lines have already been removed. -/
def envKVClean (strip_quotes : Bool) (clean : List Char) : List (String × String) :=
  (envMatches clean).map (fun p => (String.mk p.1, String.mk (envValue strip_quotes p.2)))

/-- Comment-line removal of the ENV branch: drop every line whose stripped
form starts with `#`, and rejoin the survivors with newlines. -/
def envCleanContent (s : String) : List Char :=
  joinNewline ((pySplitlines s).filter (fun line => !(['#'].isPrefixOf (pyStripL line))))

/-- Ordered `(key, processed value)` pairs produced by the ENV branch on the
stripped secret content (comment removal included). -/
def envKV (strip_quotes : Bool) (sc : String) : List (String × String) :=
  envKVClean strip_quotes (envCleanContent sc)

/-- The ENV branch of `parse_all_in_one_secret`: fold the extracted pairs
into a dict, later occurrences of a key overwriting earlier ones.  An empty
match list yields the empty dict, mirroring the early `return {}`. -/
def envBranch (sc : String) (strip_quotes : Bool) : Dict :=
  (envKV strip_quotes sc).foldl (fun m p => dinsert m p.1 p.2) []

/-- Python values as returned by `json.loads` / `yaml.safe_load`: objects,
arrays, strings, numbers (kept as their source lexeme), booleans, `None`. -/
inductive PyVal where
  | obj : List (String × PyVal) → PyVal
  | arr : List PyVal → PyVal
  | str : String → PyVal
  | num : String → PyVal
  | bool : Bool → PyVal
  | null : PyVal

/-- Model of Python `str(v)` on decoded values.  Faithful for strings,
booleans, `None` and integer lexemes — the only shapes the theorems below
touch; container reprs are abbreviated. -/
def pyStr : PyVal → String
  | .str s => s
  | .num lx => lx
  | .bool b => if b then "True" else "False"
  | .null => "None"
  | .obj _ => "\x7b...\x7d"
  | .arr _ => "[...]"

/-- JSON insignificant whitespace. -/
def isJsonWs (c : Char) : Bool := c = ' ' || c = '\t' || c = '\n' || c = '\r'

/-- Drop leading JSON whitespace. -/
def skipWs (cs : List Char) : List Char := cs.dropWhile isJsonWs

/-- Value of a hex digit, if any. -/
def hexVal (c : Char) : Option Nat :=
  if '0' ≤ c && c ≤ '9' then some (c.toNat - 48)
  else if 'a' ≤ c && c ≤ 'f' then some (c.toNat - 87)
  else if 'A' ≤ c && c ≤ 'F' then some (c.toNat - 55)
  else none

/-- Decode one JSON string body (after the opening quote), honouring the
escape sequences `json.loads` accepts and rejecting unescaped control
characters (strict mode).  `\uXXXX` is decoded as a single code point
(surrogate pairing is not rejoined; irrelevant to the ASCII data here).
Fuel is one unit per character. -/
def parseJString : Nat → List Char → Option (List Char × List Char)
  | 0, _ => none
  | _, [] => none
  | fuel + 1, c :: rest =>
    if c = quoteChar then some ([], rest)
    else if c = '\\' then
      match rest with
      | [] => none
      | e :: rest2 =>
        if e = 'u' then
          match rest2 with
          | h1 :: h2 :: h3 :: h4 :: rest3 =>
            match hexVal h1, hexVal h2, hexVal h3, hexVal h4 with
            | some a, some b, some c3, some d =>
              (parseJString fuel rest3).map
                (fun p => (Char.ofNat (((a * 16 + b) * 16 + c3) * 16 + d) :: p.1, p.2))
            | _, _, _, _ => none
          | _ => none
        else
          match
            (if e = quoteChar then some quoteChar
             else if e = '\\' then some '\\'
             else if e = '/' then some '/'
             else if e = 'b' then some '\x08'
             else if e = 'f' then some '\x0c'
             else if e = 'n' then some '\n'
             else if e = 'r' then some '\r'
             else if e = 't' then some '\t'
             else none) with
          | some d => (parseJString fuel rest2).map (fun p => (d :: p.1, p.2))
          | none => none
    else if c.toNat < 0x20 then none
    else (parseJString fuel rest).map (fun p => (c :: p.1, p.2))

/-- Characters that may appear in a JSON number lexeme. -/
def isNumChar (c : Char) : Bool :=
  ('0' ≤ c && c ≤ '9') || c = '-' || c = '+' || c = '.' || c = 'e' || c = 'E'

/-- Parse the members of a JSON object after its opening brace (at a position
where a key must start), given a parser `pv` for values.  Fuel is one unit
per member. -/
def parseJMembers (pv : List Char → Option (PyVal × List Char)) :
    Nat → List (String × PyVal) → List Char → Option (List (String × PyVal) × List Char)
  | 0, _, _ => none
  | fuel + 1, acc, cs =>
    match cs with
    | c :: rest =>
      if c = quoteChar then
        match parseJString (rest.length + 1) rest with
        | none => none
        | some (k, r1) =>
          match skipWs r1 with
          | c2 :: r2 =>
            if c2 = ':' then
              match pv r2 with
              | none => none
              | some (v, r3) =>
                match skipWs r3 with
                | c3 :: r4 =>
                  if c3 = ',' then parseJMembers pv fuel (acc ++ [(String.mk k, v)]) (skipWs r4)
                  else if c3 = '\x7d' then some (acc ++ [(String.mk k, v)], r4)
                  else none
                | [] => none
            else none
          | [] => none
      else none
    | [] => none

/-- Parse the elements of a JSON array after its opening bracket (at a
position where a value must start), given a parser for values. -/
def parseJElems (pv : List Char → Option (PyVal × List Char)) :
    Nat → List PyVal → List Char → Option (List PyVal × List Char)
  | 0, _, _ => none
  | fuel + 1, acc, cs =>
    match pv cs with
    | none => none
    | some (v, r1) =>
      match skipWs r1 with
      | c2 :: r2 =>
        if c2 = ',' then parseJElems pv fuel (acc ++ [v]) r2
        else if c2 = ']' then some (acc ++ [v], r2)
        else none
      | [] => none

/-- Recursive-descent JSON value parser modelling `json.loads` (strict mode):
leading whitespace skipped, objects, arrays, strings, numbers as lexemes,
`true`/`false`/`null`.  The outer fuel bounds nesting depth and is decremented
on the value parser handed to the member/element loops. -/
def parseJValue : Nat → List Char → Option (PyVal × List Char)
  | 0, _ => none
  | fuel + 1, cs =>
    match skipWs cs with
    | [] => none
    | c :: rest =>
      if c = '\x7b' then
        match skipWs rest with
        | c2 :: r2 =>
          if c2 = '\x7d' then some (.obj [], r2)
          else
            (parseJMembers (parseJValue fuel) ((c2 :: r2).length + 1) [] (c2 :: r2)).map
              (fun p => (.obj p.1, p.2))
        | [] => none
      else if c = '[' then
        match skipWs rest with
        | c2 :: r2 =>
          if c2 = ']' then some (.arr [], r2)
          else
            (parseJElems (parseJValue fuel) ((c2 :: r2).length + 1) [] (c2 :: r2)).map
              (fun p => (.arr p.1, p.2))
        | [] => none
      else if c = quoteChar then
        (parseJString (rest.length + 1) rest).map (fun p => (.str (String.mk p.1), p.2))
      else if ['t', 'r', 'u', 'e'].isPrefixOf (c :: rest) then
        some (.bool true, (c :: rest).drop 4)
      else if ['f', 'a', 'l', 's', 'e'].isPrefixOf (c :: rest) then
        some (.bool false, (c :: rest).drop 5)
      else if ['n', 'u', 'l', 'l'].isPrefixOf (c :: rest) then
        some (.null, (c :: rest).drop 4)
      else if isNumChar c && c ≠ '+' && c ≠ '.' && c ≠ 'e' && c ≠ 'E' then
        some (.num (String.mk ((c :: rest).takeWhile isNumChar)),
              (c :: rest).dropWhile isNumChar)
      else none

/-- Model of `json.loads`: parse one value and require only whitespace to
remain; any other outcome is an exception, modelled as `none`. -/
def jsonLoads (s : String) : Option PyVal :=
  match parseJValue (s.data.length + 1) s.data with
  | some (v, rest) => if (skipWs rest).isEmpty then some v else none
  | none => none

/-- Conversion `{str(k): str(v) for k, v in parsed.items()}` applied to the
pair list of a decoded object: fold with dict-assignment semantics so that a
duplicated source key keeps its first position and last value, exactly as the
Python dict does. -/
def pyDictOfPairs (prs : List (String × PyVal)) : Dict :=
  prs.foldl (fun m p => dinsert m p.1 (pyStr p.2)) []

/-- The JSON attempt shared by the `auto` and `json` branches of
`parse_all_in_one_secret`: succeed only when `json.loads` yields an object
(`isinstance(parsed, dict)`). -/
def jsonDictTry (pc : String) : Option Dict :=
  match jsonLoads pc with
  | some (.obj prs) => some (pyDictOfPairs prs)
  | _ => none

/-- Hex digit character for a value below 16. -/
def hexDigit (n : Nat) : Char :=
  if n < 10 then Char.ofNat (48 + n) else Char.ofNat (87 + (n - 10))

/-- Escaping of one character by `json.dumps` (default `ensure_ascii=True`):
shorthand escapes, `\u00XX` for other control characters, `\uXXXX` for
non-ASCII code points (surrogate pairs omitted; irrelevant below 0x10000). -/
def jsonEscapeChar (c : Char) : List Char :=
  if c = quoteChar then ['\\', quoteChar]
  else if c = '\\' then ['\\', '\\']
  else if c = '\n' then ['\\', 'n']
  else if c = '\t' then ['\\', 't']
  else if c = '\r' then ['\\', 'r']
  else if c = '\x08' then ['\\', 'b']
  else if c = '\x0c' then ['\\', 'f']
  else if c.toNat < 0x20 || c.toNat > 0x7e then
    ['\\', 'u', hexDigit (c.toNat / 4096 % 16), hexDigit (c.toNat / 256 % 16),
     hexDigit (c.toNat / 16 % 16), hexDigit (c.toNat % 16)]
  else [c]

/-- Escaped body of a JSON string literal. -/
def jsonEscape (s : String) : List Char := s.data.flatMap jsonEscapeChar

/-- One serialized `"key": "value"` member. -/
def jsonMember (p : String × String) : List Char :=
  quoteChar :: jsonEscape p.1 ++ [quoteChar, ':', ' ', quoteChar] ++ jsonEscape p.2 ++ [quoteChar]

/-- Serialized members of an object, joined by the default `", "` separator. -/
def jsonMembers : Dict → List Char
  | [] => []
  | [p] => jsonMember p
  | p :: rest => jsonMember p ++ [',', ' '] ++ jsonMembers rest

/-- Model of `json.dumps` on a flat string-to-string mapping with default
options: `{"k": "v", ...}`. -/
def jsonDumps (m : Dict) : String :=
  String.mk ('\x7b' :: jsonMembers m ++ ['\x7d'])

/-- Split one line at its first colon, yielding `(key, value)` when the line
has the shape `key: value` (or `key:` at end of line) that makes a flat YAML
mapping entry. -/
def yamlEntry (line : List Char) : Option (String × String) :=
  let key := line.takeWhile (fun c => c ≠ ':')
  match line.drop key.length with
  | ':' :: rest =>
    if rest.isEmpty || rest.headD ' ' = ' ' then
      if (pyStripL key).isEmpty then none
      else some (String.mk (pyStripL key), String.mk (pyStripL rest))
    else none
  | _ => none

/-- Model of `yaml.safe_load` restricted to the shapes this engine can
accept: a block of `key: value` lines loads as a flat mapping of strings,
an empty document loads as `None`, and anything else is treated as a plain
scalar (which the callers below reject because it is not a mapping).  The
theorems that depend on a YAML outcome either hypothesise it explicitly or
evaluate inputs on which this model agrees with the library. -/
def yamlLoads (s : String) : Option PyVal :=
  let lines := (pySplitlines s).filter (fun l => !(pyStripL l).isEmpty)
  if lines.isEmpty then some .null
  else
    match lines.mapM yamlEntry with
    | some entries => some (.obj (entries.map (fun p => (p.1, .str p.2))))
    | none => some (.str (pyStrip s))

/-- The YAML attempt of the explicit `yaml` format hint: succeed only when
`yaml.safe_load` yields a mapping. -/
def yamlDictTry (pc : String) : Option Dict :=
  match yamlLoads pc with
  | some (.obj prs) => some (pyDictOfPairs prs)
  | _ => none

/-- The YAML attempt of the `auto` branch, including its acceptance guard:
the result must be a mapping with more than one entry, or some line of the
content must contain a colon. -/
def yamlAutoTry (pc : String) : Option Dict :=
  match yamlLoads pc with
  | some (.obj prs) =>
    let d := pyDictOfPairs prs
    if d.length > 1 || (pySplitlines pc).any (fun l => l.contains ':') then some d
    else none
  | _ => none

/-- Preprocessing shared by the structured branches: strip, then normalise
escaped newlines (`\n` as two characters) to real newlines. -/
def preprocess (s : String) : String := pyReplace (pyStrip s) "\\n" "\n"

/-- Model of `parse_all_in_one_secret(secret_content, format_hint,
strip_quotes)` from `src/env_manager.py`.  The `os.path.isfile` probe is
modelled as false (no filesystem in the embedding); everything else follows
the source's control flow: empty input short-circuits, `auto` tries JSON for
brace-wrapped content, then YAML for colon-bearing content, then degrades to
the ENV heuristic when an equals sign is present; explicit hints run only
their own branch and fall through to the final empty mapping on failure. -/
def parse_all_in_one_secret (secret_content : String) (format_hint : String)
    (strip_quotes : Bool := true) : Dict :=
  if secret_content = "" then []
  else
    let sc := pyStrip secret_content
    let pc := preprocess secret_content
    if format_hint = "auto" then
      match (if pyStartswith pc "\x7b" && pyEndswith pc "\x7d" then jsonDictTry pc else none) with
      | some d => d
      | none =>
        match (if pyContainsChar pc ':' then yamlAutoTry pc else none) with
        | some d => d
        | none => if pyContainsChar sc '=' then envBranch sc strip_quotes else []
    else if format_hint = "json" then
      (jsonDictTry pc).getD []
    else if format_hint = "yaml" then
      (yamlDictTry pc).getD []
    else if format_hint = "env" then
      envBranch sc strip_quotes
    else []

/-- Strict lexicographic comparison on code points, the order Python uses to
compare these ASCII strings. -/
def ltChars : List Char → List Char → Bool
  | [], [] => false
  | [], _ :: _ => true
  | _ :: _, [] => false
  | a :: as, b :: bs =>
    if a < b then true
    else if b < a then false
    else ltChars as bs

/-- String wrapper for `ltChars`. -/
def strLt (a b : String) : Bool := ltChars a.data b.data

/-- Insert into a strictly sorted list, dropping duplicates. -/
def insertSorted (x : String) : List String → List String
  | [] => [x]
  | y :: ys =>
    if x = y then y :: ys
    else if strLt x y then x :: y :: ys
    else y :: insertSorted x ys

/-- Model of Python `sorted(list(set(l)))` for strings. -/
def sortDedup (l : List String) : List String :=
  l.foldl (fun acc x => insertSorted x acc) []

/-- First-occurrence deduplication, the shape chosen for Python's
`list(set([...]))` over the environment-name candidates.  The set's
iteration order is unspecified in Python; the theorems below only use inputs
whose classification does not depend on that order. -/
def dedupKeepFirst : List String → List String
  | [] => []
  | x :: xs => x :: (dedupKeepFirst xs).filter (fun y => y ≠ x)

/-- The environment-name candidates tried by `detect_file_patterns`: the
active environment's upper-cased name plus the fixed fallbacks. -/
def envCandidates (env_upper : String) : List String :=
  dedupKeepFirst [env_upper, "PROD", "STAGING", "DEV", "TEST", "PRODUCTION"]

/-- Model of Python `s.lstrip("_")`. -/
def lstripUnderscore (s : String) : String :=
  String.mk (s.data.dropWhile (fun c => c = '_'))

/-- Model of Python `s.split("_")[0]`. -/
def firstSegment (s : String) : String :=
  String.mk (s.data.takeWhile (fun c => c ≠ '_'))

/-- Classification of one variable name by the pattern-detection loop:
returns the `.env.<component>` pattern it contributes, if any.  Mirrors the
loop body of `detect_file_patterns`: internal `ENV_FILES_` names are skipped,
the first matching environment candidate decides scoping, names scoped to a
different environment are dropped, and the surviving suffix's first
underscore-delimited token (lower-cased) names the component. -/
def patternOf (env_upper var_name : String) : Option String :=
  if pyStartswith var_name "ENV_FILES_" then none
  else
    let matched :=
      ((envCandidates env_upper).filter (fun e => e ≠ "")).find?
        (fun e => pyStartswith var_name ("ENV_" ++ e ++ "_") || var_name = "ENV_" ++ e)
    let suffix :=
      match matched with
      | some e =>
        if e ≠ env_upper then none
        else if pyStartswith var_name ("ENV_" ++ e ++ "_") then
          some (pyDropPre var_name ("ENV_" ++ e ++ "_"))
        else if pyStartswith var_name ("ENV_" ++ e) then
          some (pyDropPre var_name ("ENV_" ++ e))
        else some ""
      | none =>
        if pyStartswith var_name "ENV_" then some (pyDropn var_name 4) else none
    match suffix with
    | none => none
    | some suf =>
      let suf := lstripUnderscore suf
      if suf ≠ "" then
        let filename := pyLower (firstSegment suf)
        if filename ≠ "" then some (".env." ++ filename) else none
      else none

/-- Model of `detect_file_patterns(all_env_vars, structure, environment)`
from `src/env_manager.py`: `single` short-circuits to `[".env"]`; otherwise
the contributed component patterns are collected, sorted and deduplicated,
with `[".env.app"]` as the fallback when nothing was discovered. -/
def detect_file_patterns (all_env_vars : Dict) (struct : String)
    (environment : String := "") : List String :=
  if struct = "single" then [".env"]
  else
    let env_upper := pyUpper environment
    let ps := sortDedup ((dkeys all_env_vars).filterMap (patternOf env_upper))
    if ps = [] then [".env.app"] else ps

/-- Model of POSIX `os.path.isabs`. -/
def pyIsAbs (p : String) : Bool := pyStartswith p "/"

/-- Model of POSIX `os.path.join` on two components. -/
def pyJoin (a b : String) : String :=
  if pyIsAbs b then b
  else if b = "" then (if a = "" || pyEndswith a "/" then a else a ++ "/")
  else if a = "" || pyEndswith a "/" then a ++ b
  else a ++ "/" ++ b

/-- Model of `determine_file_structure(structure, patterns, environment,
base_path)` from `src/env_manager.py`.  The function also reads the ambient
variable set (for the `auto` heuristic) and `config.ENV_FILES_PATH`; both are
passed explicitly here (`env_files_path = none` models an unset/empty
configuration value, which is falsy in the source's `if` test).  Note the
source has no branch for the `custom` structure: it falls through every
arm and returns the empty mapping. -/
def determine_file_structure (env_files_path : Option String) (environ : Dict)
    (struct : String) (patterns : List String)
    (environment base_path : String) : Dict :=
  let struct :=
    if struct = "auto" then
      let has_env_specific :=
        environment ≠ "" &&
          (dkeys environ).any
            (fun k => pyStartswith k ("ENV_" ++ pyUpper environment ++ "_"))
      if patterns.length > 1 || has_env_specific then "nested" else "flat"
    else struct
  let pathCfg := match env_files_path with
    | none => none
    | some p => if p = "" then none else some p
  let dir_base := match pathCfg with
    | none => base_path
    | some p => if pyIsAbs p then p else pyJoin base_path p
  let use_default_envs := pathCfg.isNone
  if struct = "single" then [(".env", pyJoin dir_base ".env")]
  else if struct = "flat" then
    patterns.foldl (fun m p => dinsert m p (pyJoin dir_base p)) []
  else if struct = "nested" then
    let env_dir :=
      if use_default_envs then pyJoin (pyJoin dir_base ".envs") environment
      else pyJoin dir_base environment
    patterns.foldl (fun m p => dinsert m p (pyJoin env_dir p)) []
  else []

/-- One individual-variable stage of the component merge: for every variable
whose name extends `pre`, bind the remaining suffix to its value (stages A
and C of `merge_env_vars_by_priority`). -/
def stage_individual (vars : Dict) (pre : String) (m : Dict) : Dict :=
  vars.foldl
    (fun m kv => if pyStartswith kv.1 pre then dinsert m (pyDropPre kv.1 pre) kv.2 else m) m

/-- Key normalisation of the component-blob stages: a parsed sub-key carrying
the `FILE_BASE_` prefix has it stripped, for consistency with the individual
stages. -/
def stripCompPre (fb pk : String) : String :=
  if pyStartswith pk (fb ++ "_") then pyDropPre pk (fb ++ "_") else pk

/-- One blob stage of the component merge: if `blobKey` is bound, parse its
value; a non-empty parse contributes every sub-key (normalised); a failed
parse of non-blank content is kept whole under the bare component name
(stages B and D of `merge_env_vars_by_priority`). -/
def stage_blob (vars : Dict) (blobKey fb fmt : String) (m : Dict) : Dict :=
  match dlookup vars blobKey with
  | none => m
  | some v =>
    let parsed := parse_all_in_one_secret v fmt
    if parsed ≠ [] then
      parsed.foldl (fun m p => dinsert m (stripCompPre fb p.1) p.2) m
    else if pyStrip v ≠ "" then dinsert m fb v
    else m

/-- Key transformation of the global (`.env`) merge for component blobs:
sub-keys already carrying the upper-cased `KEY_` prefix are kept, others are
prefixed with the component key (this comparison is case-sensitive against
`key.upper() + "_"`). -/
def globalBlobKey (key pk : String) : String :=
  if pyStartswith pk (pyUpper key ++ "_") then pk else key ++ "_" ++ pk

/-- Merge step shared by both passes of the global (`.env`) regime: a value
that parses to a non-empty mapping is expanded with `globalBlobKey`
prefixing unless the candidate key itself contains an underscore (then the
raw value is kept); otherwise the pair is kept as an individual variable. -/
def globalInsert (fmt : String) (m : Dict) (key v : String) : Dict :=
  let parsed := parse_all_in_one_secret v fmt
  if parsed ≠ [] then
    if pyContainsChar key '_' then dinsert m key v
    else parsed.foldl (fun m p => dinsert m (globalBlobKey key p.1) p.2) m
  else dinsert m key v

/-- The fixed candidate list used by the global merge to exclude
environment-scoped variables from the base pass. -/
def globalEnvCandidates (env_upper : String) : List String :=
  [env_upper, "PROD", "STAGING", "DEV", "TEST", "PRODUCTION"]

/-- Base pass of the global (`.env`) regime: every bare `ENV_`-prefixed
variable that is neither internal configuration, the raw `ENV` template, nor
scoped to any known environment. -/
def globalMergeBase (vars : Dict) (env_upper fmt : String) (m : Dict) : Dict :=
  vars.foldl
    (fun m kv =>
      if pyStartswith kv.1 "ENV_" then
        if pyStartswith kv.1 "ENV_FILES_" || kv.1 = "ENV" then m
        else if (globalEnvCandidates env_upper).any
            (fun e => e ≠ "" && pyStartswith kv.1 ("ENV_" ++ e ++ "_")) then m
        else globalInsert fmt m (pyDropn kv.1 4) kv.2
      else m) m

/-- Environment pass of the global (`.env`) regime: variables scoped with the
active environment's prefix overwrite same-named base entries. -/
def globalMergeEnv (vars : Dict) (env_upper fmt : String) (m : Dict) : Dict :=
  vars.foldl
    (fun m kv =>
      if pyStartswith kv.1 ("ENV_" ++ env_upper ++ "_") then
        globalInsert fmt m (pyDropPre kv.1 ("ENV_" ++ env_upper ++ "_")) kv.2
      else m) m

/-- The component name of a patterned file: `.env.app` (or plain `app`)
becomes `APP`. -/
def componentBase (pattern : String) : String :=
  pyUpper (pyReplace pattern ".env." "")

/-- Model of `merge_env_vars_by_priority(all_env_vars, environment, pattern)`
from `src/env_manager.py`; `fmt` stands for `config.ENV_FILES_FORMAT`.  The
global `.env` pattern runs the two global passes; a component pattern runs
the four stages in ascending priority: base individual variables, base
component blob, environment-scoped individual variables, environment-scoped
component blob. -/
def merge_env_vars_by_priority (all_env_vars : Dict) (environment pattern : String)
    (fmt : String := "auto") : Dict :=
  let env_upper := pyUpper environment
  if pattern = ".env" then
    globalMergeEnv all_env_vars env_upper fmt (globalMergeBase all_env_vars env_upper fmt [])
  else
    let fb := componentBase pattern
    stage_blob all_env_vars ("ENV_" ++ env_upper ++ "_" ++ fb) fb fmt
      (stage_individual all_env_vars ("ENV_" ++ env_upper ++ "_" ++ fb ++ "_")
        (stage_blob all_env_vars ("ENV_" ++ fb) fb fmt
          (stage_individual all_env_vars ("ENV_" ++ fb ++ "_") [])))

/-- One line of the replacement pass of `merge_raw_env`: comments and blank
lines are preserved; a `KEY=VALUE` line whose key is overridden is replaced
and the key recorded as processed. -/
def mergeRawLine (overrides : Dict) (st : List (List Char) × List String)
    (line : List Char) : List (List Char) × List String :=
  let stripped := pyStripL line
  if stripped.isEmpty || ['#'].isPrefixOf stripped then (st.1 ++ [line], st.2)
  else if stripped.contains '=' then
    let key := String.mk (pyStripL (stripped.takeWhile (fun c => c ≠ '=')))
    match dlookup overrides key with
    | some v => (st.1 ++ [(key ++ "=" ++ v).data], st.2 ++ [key])
    | none => (st.1 ++ [line], st.2)
  else (st.1 ++ [line], st.2)

/-- Append pass of `merge_raw_env`: overrides whose keys were not already
replaced are appended, with one separating blank line before the first new
key when nothing was replaced and the last line is non-blank. -/
def mergeRawAppend (st : List (List Char) × List String) (kv : String × String) :
    List (List Char) × List String :=
  if st.2.contains kv.1 then st
  else
    let withSep :=
      if st.2.isEmpty && !st.1.isEmpty && !(pyStripL (st.1.getLastD [])).isEmpty then
        st.1 ++ [[]]
      else st.1
    (withSep ++ [(kv.1 ++ "=" ++ kv.2).data], st.2 ++ [kv.1])

/-- Model of `merge_raw_env(base_content, overrides)` from
`src/env_manager.py`: merge overrides into raw template text, preserving
comments, formatting and ordering, appending new keys at the end. -/
def merge_raw_env (base_content : String) (overrides : Dict) : String :=
  if base_content = "" then
    String.mk (joinNewline (overrides.map (fun kv => (kv.1 ++ "=" ++ kv.2).data)))
  else
    let st := (pySplitlines base_content).foldl (mergeRawLine overrides) ([], [])
    let st := overrides.foldl mergeRawAppend st
    String.mk (joinNewline st.1)

/-- Configuration fields of the shared `config` singleton consumed by the
environment-file engine, passed explicitly in the embedding. -/
structure Config where
  ENV_FILES_GENERATE : Bool
  ENV_FILES_STRUCTURE : String
  ENV_FILES_PATH : Option String
  ENV_FILES_PATTERNS : List String
  ENV_FILES_CREATE_ROOT : Bool
  ENV_FILES_FORMAT : String
  ENVIRONMENT : String
  GIT_SUBDIR : String

/-- Model of `detect_environment_secrets()`: collect the raw `ENV_` overrides
from the ambient variables, determine the target patterns, and render each
pattern's content (the global `.env` against the raw `ENV` template, the
patterned files against a component template unless it looks like JSON). -/
def detect_environment_secrets (cfg : Config) (environ : Dict) : Dict :=
  let base_template := (dlookup environ "ENV").getD ""
  let raw_overrides :=
    environ.filter (fun kv => pyStartswith kv.1 "ENV_" && !pyStartswith kv.1 "ENV_FILES_")
  let patterns :=
    if cfg.ENV_FILES_STRUCTURE = "single" then [".env"]
    else
      let ps := detect_file_patterns raw_overrides cfg.ENV_FILES_STRUCTURE cfg.ENVIRONMENT
      if !cfg.ENV_FILES_PATTERNS.isEmpty && cfg.ENV_FILES_STRUCTURE ≠ "auto" then
        (cfg.ENV_FILES_PATTERNS.map pyStrip).filter (fun p => p ≠ "")
      else ps
  patterns.foldl
    (fun result pattern =>
      let overrides :=
        merge_env_vars_by_priority raw_overrides cfg.ENVIRONMENT pattern cfg.ENV_FILES_FORMAT
      if pattern = ".env" then
        dinsert result pattern (merge_raw_env base_template overrides)
      else
        let comp_base :=
          match dlookup raw_overrides ("ENV_" ++ componentBase pattern) with
          | some cb => if pyStartswith (pyStrip cb) "\x7b" then "" else cb
          | none => ""
        dinsert result pattern (merge_raw_env comp_base overrides))
    []

/-- UTF-8 encoding of one code point. -/
def utf8Bytes (c : Char) : List Nat :=
  let n := c.toNat
  if n < 0x80 then [n]
  else if n < 0x800 then [0xc0 + n / 64, 0x80 + n % 64]
  else if n < 0x10000 then [0xe0 + n / 4096, 0x80 + n / 64 % 64, 0x80 + n % 64]
  else [0xf0 + n / 262144, 0x80 + n / 4096 % 64, 0x80 + n / 64 % 64, 0x80 + n % 64]

/-- The base64 alphabet. -/
def b64Alphabet : List Char :=
  "ABCDEFGHIJKLMNOPQRSTUVWXYZabcdefghijklmnopqrstuvwxyz0123456789+/".data

/-- Character for a 6-bit value. -/
def b64Char (n : Nat) : Char := b64Alphabet.getD n '='

/-- Model of `base64.b64encode` over a byte list. -/
def b64encodeBytes : List Nat → List Char
  | [] => []
  | [a] => [b64Char (a / 4), b64Char (a % 4 * 16), '=', '=']
  | [a, b] => [b64Char (a / 4), b64Char (a % 4 * 16 + b / 16), b64Char (b % 16 * 4), '=']
  | a :: b :: c :: rest =>
    b64Char (a / 4) :: b64Char (a % 4 * 16 + b / 16) ::
      b64Char (b % 16 * 4 + c / 64) :: b64Char (c % 64) :: b64encodeBytes rest

/-- Model of `base64.b64encode(s.encode("utf-8")).decode("utf-8")`. -/
def b64encode (s : String) : String := String.mk (b64encodeBytes (s.data.flatMap utf8Bytes))

/-- Model of POSIX `os.path.dirname`. -/
def pyDirname (p : String) : String :=
  let cs := p.data
  let i := cs.length - (cs.reverse.takeWhile (fun c => c ≠ '/')).length
  let head := cs.take i
  if head.isEmpty || head.all (fun c => c = '/') then String.mk head
  else String.mk (head.reverse.dropWhile (fun c => c = '/')).reverse

/-- The remote executor: one issued shell command either succeeds or raises,
modelled as `Except` (the excluded shell-session component). -/
abbrev Conn := String → Except String Unit

/-- Model of `create_env_file(conn, file_path, env_content)`: no-op on empty
content, otherwise one batched remote command that creates the directory,
decodes the base64-encoded content into the file and sets mode 600. -/
def create_env_file (conn : Conn) (file_path env_content : String) :
    Except String Unit :=
  if env_content = "" then Except.ok ()
  else
    let dir_path := pyDirname file_path
    let encoded := b64encode env_content
    conn ("mkdir -p \x22" ++ dir_path ++ "\x22 && echo \x22" ++ encoded ++
      "\x22 | base64 -d | tee \x22" ++ file_path ++ "\x22 > /dev/null && chmod 600 \x22" ++
      file_path ++ "\x22")

/-- Outcome of one driver run, distinguishing the source's return paths:
generation disabled, no variables found, all files written, or an error
caught at the boundary and logged. -/
inductive GenOutcome where
  | skipped : GenOutcome
  | noVars : GenOutcome
  | completed : GenOutcome
  | errorLogged : String → GenOutcome

/-- Body of `generate_env_files` (the region guarded by `try`): classify and
merge the ambient variables, resolve the layout once over all patterns,
write each file through the executor, and optionally write the combined root
file.  A failing remote write propagates out of the body as an error. -/
def generateEnvFilesBody (cfg : Config) (environ : Dict) (conn : Conn) :
    Except String GenOutcome := do
  let all_env_vars :=
    environ.filter
      (fun kv => (pyStartswith kv.1 "ENV_" || kv.1 = "ENV") && !pyStartswith kv.1 "ENV_FILES_")
  let env_file_data := detect_environment_secrets cfg environ
  if env_file_data.isEmpty then
    return GenOutcome.noVars
  let file_paths :=
    determine_file_structure cfg.ENV_FILES_PATH environ cfg.ENV_FILES_STRUCTURE
      (dkeys env_file_data) cfg.ENVIRONMENT cfg.GIT_SUBDIR
  for pe in env_file_data do
    match dlookup file_paths pe.1 with
    | some file_path => create_env_file conn file_path pe.2
    | none => pure ()
  if cfg.ENV_FILES_CREATE_ROOT then
    let root_vars :=
      merge_env_vars_by_priority all_env_vars cfg.ENVIRONMENT ".env" cfg.ENV_FILES_FORMAT
    let root_env_path := pyJoin cfg.GIT_SUBDIR ".env"
    if !root_vars.isEmpty then
      let base_template := (dlookup environ "ENV").getD ""
      create_env_file conn root_env_path (merge_raw_env base_template root_vars)
  return GenOutcome.completed

/-- Model of `generate_env_files(conn)`: no-op unless generation is enabled;
otherwise run the body under the boundary `try`, converting any raised error
into a logged outcome so the deployment continues. -/
def generate_env_files (cfg : Config) (environ : Dict) (conn : Conn) :
    Except String GenOutcome :=
  if !cfg.ENV_FILES_GENERATE then Except.ok GenOutcome.skipped
  else
    match generateEnvFilesBody cfg environ conn with
    | Except.ok r => Except.ok r
    | Except.error e => Except.ok (GenOutcome.errorLogged e)

/-! Lemmas about the dict model. -/

theorem dlookup_dinsert : ∀ (m : Dict) (k v k' : String),
    dlookup (dinsert m k v) k' = if k' = k then some v else dlookup m k'
  | [], k, v, k' => by
    simp only [dinsert, dlookup]
    by_cases h : k' = k
    · rw [if_pos h.symm, if_pos h]
    · rw [if_neg (fun hh => h hh.symm), if_neg h]
  | p :: m, k, v, k' => by
    simp only [dinsert]
    by_cases hp : p.1 = k
    · rw [if_pos hp]
      simp only [dlookup]
      by_cases h : k' = k
      · rw [if_pos h.symm, if_pos h]
      · rw [if_neg (fun hh => h hh.symm), if_neg h,
          if_neg (fun hh : p.1 = k' => h (hp.symm.trans hh).symm)]
    · rw [if_neg hp]
      simp only [dlookup]
      by_cases h : p.1 = k'
      · rw [if_pos h, if_neg (fun hk : k' = k => hp (h.trans hk)), if_pos h]
      · rw [if_neg h, dlookup_dinsert m k v k']
        by_cases hk : k' = k
        · rw [if_pos hk, if_pos hk]
        · rw [if_neg hk, if_neg hk, if_neg h]

theorem orElse_assoc (a b c : Option String) :
    ((a.orElse fun _ => b).orElse fun _ => c) =
      (a.orElse fun _ => b.orElse fun _ => c) := by
  cases a <;> simp [Option.orElse]

/-- Decomposition of a left fold of dict updates over an arbitrary starting
dict: a lookup first consults what the fold itself wrote (the fold started
from the empty dict), then the starting dict.  This is the shape of every
merge stage in the engine. -/
theorem dlookup_foldl_step {α : Type} (step : Dict → α → Dict)
    (hstep : ∀ m a k, dlookup (step m a) k =
      (dlookup (step [] a) k).orElse fun _ => dlookup m k) :
    ∀ (l : List α) (m : Dict) (k : String),
      dlookup (l.foldl step m) k =
        (dlookup (l.foldl step []) k).orElse fun _ => dlookup m k := by
  intro l
  induction l with
  | nil => intro m k; simp [Option.orElse, dlookup]
  | cons a l ih =>
    intro m k
    have h1 : dlookup ((a :: l).foldl step m) k =
        (dlookup (l.foldl step []) k).orElse fun _ => dlookup (step m a) k := by
      simpa using ih (step m a) k
    have h2 : dlookup ((a :: l).foldl step []) k =
        (dlookup (l.foldl step []) k).orElse fun _ => dlookup (step [] a) k := by
      simpa using ih (step [] a) k
    rw [h1, h2, hstep m a k, orElse_assoc]

/-- The simple guarded-insert step satisfies the decomposition hypothesis. -/
theorem hstep_guarded (g : String × String → Bool) (f1 f2 : String × String → String) :
    ∀ (m : Dict) (a : String × String) (k : String),
      dlookup (if g a then dinsert m (f1 a) (f2 a) else m) k =
        (dlookup (if g a then dinsert [] (f1 a) (f2 a) else ([] : Dict)) k).orElse
          fun _ => dlookup m k := by
  intro m a k
  by_cases hg : g a
  · simp only [hg, if_pos, dlookup_dinsert]
    by_cases hk : k = f1 a <;> simp [hk, dinsert, dlookup, Option.orElse]
  · simp [hg, dlookup, Option.orElse]

theorem stage_individual_decomp (vars : Dict) (pre : String) (m : Dict) (k : String) :
    dlookup (stage_individual vars pre m) k =
      (dlookup (stage_individual vars pre []) k).orElse fun _ => dlookup m k := by
  unfold stage_individual
  exact dlookup_foldl_step _
    (hstep_guarded (fun kv => pyStartswith kv.1 pre) (fun kv => pyDropPre kv.1 pre)
      (fun kv => kv.2)) vars m k

theorem hstep_plain_insert (f1 f2 : String × String → String) :
    ∀ (m : Dict) (a : String × String) (k : String),
      dlookup (dinsert m (f1 a) (f2 a)) k =
        (dlookup (dinsert [] (f1 a) (f2 a)) k).orElse fun _ => dlookup m k := by
  intro m a k
  have := hstep_guarded (fun _ => true) f1 f2 m a k
  simpa using this

theorem stage_blob_decomp (vars : Dict) (blobKey fb fmt : String) (m : Dict) (k : String) :
    dlookup (stage_blob vars blobKey fb fmt m) k =
      (dlookup (stage_blob vars blobKey fb fmt []) k).orElse fun _ => dlookup m k := by
  unfold stage_blob
  cases hv : dlookup vars blobKey with
  | none => simp [dlookup, Option.orElse]
  | some v =>
    dsimp only
    by_cases hp : parse_all_in_one_secret v fmt ≠ []
    · rw [if_pos hp, if_pos hp]
      exact dlookup_foldl_step _
        (hstep_plain_insert (fun p => stripCompPre fb p.1) (fun p => p.2)) _ m k
    · rw [if_neg hp, if_neg hp]
      by_cases hs : pyStrip v ≠ ""
      · rw [if_pos hs, if_pos hs, dlookup_dinsert]
        by_cases hk : k = fb
        · simp [hk, dinsert, dlookup, Option.orElse]
        · rw [if_neg hk,
            show dlookup (dinsert [] fb v) k = none from by
              simp only [dinsert, dlookup, if_neg (fun hh : fb = k => hk hh.symm)]]
          rfl
      · rw [if_neg hs, if_neg hs]
        simp [dlookup, Option.orElse]

theorem find?_snoc {α : Type} (l : List α) (p : α) (f : α → Bool) :
    (l ++ [p]).find? f = (l.find? f).orElse fun _ => [p].find? f := by
  induction l with
  | nil => simp [Option.orElse]
  | cons a l ih =>
    by_cases h : f a <;> simp [List.find?, h, ih, Option.orElse]

/-- The value attached to the last occurrence of a key in an ordered pair
list, if any. -/
def lastValue (l : List (String × String)) (k : String) : Option String :=
  (l.reverse.find? (fun p => p.1 == k)).map Prod.snd

theorem dlookup_foldl_pairs : ∀ (l : List (String × String)) (m : Dict) (k : String),
    dlookup (l.foldl (fun m p => dinsert m p.1 p.2) m) k =
      (lastValue l k).orElse fun _ => dlookup m k
  | [], m, k => by simp [lastValue, List.find?, Option.orElse]
  | p :: l, m, k => by
    have ih := dlookup_foldl_pairs l (dinsert m p.1 p.2) k
    simp only [List.foldl_cons] at *
    rw [ih, dlookup_dinsert]
    simp only [lastValue, List.reverse_cons, find?_snoc]
    cases hf : l.reverse.find? (fun q => q.1 == k) with
    | some q => simp [Option.orElse]
    | none =>
      simp only [Option.orElse, List.find?]
      by_cases hk : k = p.1
      · simp [hk, Option.orElse]
      · simp [Option.orElse, show (p.1 == k) = false from
          beq_eq_false_iff_ne.mpr (fun hh => hk hh.symm), hk]

/-- C1: for every variable mapping, environment and component pattern, the
component regime of `merge_env_vars_by_priority` resolves content in strict
ascending priority — base individual variables, base blob, environment-scoped
individual variables, environment-scoped blob — each stage unconditionally
overwriting keys set by the previous stages (lookup order is the reverse of
stage order); in particular `ENV_PROD_APP_PORT` beats `ENV_APP_PORT` for the
`app` pattern under environment `prod`, and the `ENV_PROD_APP` blob beats the
`ENV_APP` blob while supplying keys absent from it. -/
theorem C1_component_merge_priority :
    (∀ (vars : Dict) (env pattern fmt k : String), pattern ≠ ".env" →
      dlookup (merge_env_vars_by_priority vars env pattern fmt) k =
        ((dlookup (stage_blob vars ("ENV_" ++ pyUpper env ++ "_" ++ componentBase pattern)
            (componentBase pattern) fmt []) k).orElse fun _ =>
          ((dlookup (stage_individual vars
              ("ENV_" ++ pyUpper env ++ "_" ++ componentBase pattern ++ "_") []) k).orElse fun _ =>
            ((dlookup (stage_blob vars ("ENV_" ++ componentBase pattern)
                (componentBase pattern) fmt []) k).orElse fun _ =>
              dlookup (stage_individual vars
                ("ENV_" ++ componentBase pattern ++ "_") []) k)))) ∧
    merge_env_vars_by_priority [("ENV_APP_PORT", "8000"), ("ENV_PROD_APP_PORT", "9000")]
        "prod" "app" "auto" = [("PORT", "9000")] ∧
    dlookup (merge_env_vars_by_priority
        [("ENV_APP", "PORT=8000"), ("ENV_PROD_APP", "PORT=9000\nSECRET=x")]
        "prod" "app" "auto") "PORT" = some "9000" ∧
    dlookup (merge_env_vars_by_priority
        [("ENV_APP", "PORT=8000"), ("ENV_PROD_APP", "PORT=9000\nSECRET=x")]
        "prod" "app" "auto") "SECRET" = some "x" := by
  refine ⟨?_, by decide, by decide, by decide⟩
  intro vars env pattern fmt k hpat
  simp only [merge_env_vars_by_priority]
  rw [if_neg hpat]
  rw [stage_blob_decomp vars _ _ fmt
      (stage_individual vars ("ENV_" ++ pyUpper env ++ "_" ++ componentBase pattern ++ "_")
        (stage_blob vars ("ENV_" ++ componentBase pattern) (componentBase pattern) fmt
          (stage_individual vars ("ENV_" ++ componentBase pattern ++ "_") []))) k,
    stage_individual_decomp vars _
      (stage_blob vars ("ENV_" ++ componentBase pattern) (componentBase pattern) fmt
        (stage_individual vars ("ENV_" ++ componentBase pattern ++ "_") [])) k,
    stage_blob_decomp vars _ _ fmt
      (stage_individual vars ("ENV_" ++ componentBase pattern ++ "_") []) k]

/-- C1 witness: the general stage decomposition applied at the spec's first
concrete example. -/
theorem C1_component_merge_priority_witness :
    ("app" : String) ≠ ".env" ∧
      dlookup (merge_env_vars_by_priority
          [("ENV_APP_PORT", "8000"), ("ENV_PROD_APP_PORT", "9000")] "prod" "app" "auto")
          "PORT" =
        ((dlookup (stage_blob [("ENV_APP_PORT", "8000"), ("ENV_PROD_APP_PORT", "9000")]
            ("ENV_" ++ pyUpper "prod" ++ "_" ++ componentBase "app")
            (componentBase "app") "auto" []) "PORT").orElse fun _ =>
          ((dlookup (stage_individual [("ENV_APP_PORT", "8000"), ("ENV_PROD_APP_PORT", "9000")]
              ("ENV_" ++ pyUpper "prod" ++ "_" ++ componentBase "app" ++ "_") []) "PORT").orElse
            fun _ =>
            ((dlookup (stage_blob [("ENV_APP_PORT", "8000"), ("ENV_PROD_APP_PORT", "9000")]
                ("ENV_" ++ componentBase "app") (componentBase "app") "auto" []) "PORT").orElse
              fun _ =>
              dlookup (stage_individual [("ENV_APP_PORT", "8000"), ("ENV_PROD_APP_PORT", "9000")]
                ("ENV_" ++ componentBase "app" ++ "_") []) "PORT"))) :=
  ⟨by decide, C1_component_merge_priority.1
    [("ENV_APP_PORT", "8000"), ("ENV_PROD_APP_PORT", "9000")] "prod" "app" "auto" "PORT"
    (by decide)⟩

/-- C4: the claim expects the `custom` structure to place one path per
pattern under the configured base directory, but `determine_file_structure`
in `src/env_manager.py` has no `custom` arm at all and returns the empty
mapping for every input, so no environment file placement is produced. -/
theorem C4_custom_structure_returns_empty :
    (∀ (efp : Option String) (environ : Dict) (patterns : List String) (env base : String),
      determine_file_structure efp environ "custom" patterns env base = []) ∧
    determine_file_structure (some "/etc/cfg") [] "custom" [".env.app"] "prod" "/srv" = [] := by
  constructor
  · intro efp environ patterns env base
    simp [determine_file_structure]
  · decide

/-- C10: within a single ENV-format blob parse, later occurrences of a key
overwrite earlier ones — the parsed dict maps each key to the value of its
last occurrence among the extracted pairs; concretely `A=1` then `A=2`
yields `A = 2`. -/
theorem C10_env_parse_last_occurrence_wins :
    (∀ (s : String) (sq : Bool) (k : String),
      dlookup (envBranch s sq) k = lastValue (envKV sq s) k) ∧
    parse_all_in_one_secret ("A=1" ++ "\n" ++ "A=2") "env" = [("A", "2")] := by
  constructor
  · intro s sq k
    unfold envBranch
    rw [dlookup_foldl_pairs]
    cases lastValue (envKV sq s) k <;> simp [dlookup, Option.orElse]
  · decide

theorem isPrefixOf_eq_false_of_lt : ∀ (l1 l2 : List Char), l2.length < l1.length →
    l1.isPrefixOf l2 = false
  | [], _, h => absurd h (by simp)
  | _ :: _, [], _ => rfl
  | a :: l1, b :: l2, h => by
    simp only [List.isPrefixOf_cons₂]
    rw [isPrefixOf_eq_false_of_lt l1 l2 (Nat.lt_of_succ_lt_succ h)]
    simp

theorem isPrefixOf_self (l : List Char) : l.isPrefixOf l = true := by
  induction l with
  | nil => rfl
  | cons a l ih => simp [List.isPrefixOf_cons₂, ih]

theorem pyStartswith_self (s : String) : pyStartswith s s = true := isPrefixOf_self s.data

theorem pyStartswith_strict_ext (s t : String) (ht : t ≠ "") :
    pyStartswith s (s ++ t) = false := by
  unfold pyStartswith
  rw [String.data_append]
  apply isPrefixOf_eq_false_of_lt
  have ht' : t.data ≠ [] := by
    intro hnil
    apply ht
    cases t
    simp_all
  have := List.length_pos.mpr ht'
  simp only [List.length_append]
  omega

theorem pyDropPre_self (s : String) : pyDropPre s s = "" := by
  unfold pyDropPre pyDropn
  rw [List.drop_length]

/-- A name of the exact shape `ENV_{E}` (the whole-environment blob for the
active environment) is never classified as contributing a component
pattern. -/
theorem patternOf_env_blob (E : String) : patternOf E ("ENV_" ++ E) = none := by
  by_cases hE : E = ""
  · subst hE; decide
  · unfold patternOf
    by_cases hF : pyStartswith ("ENV_" ++ E) "ENV_FILES_"
    · rw [if_pos hF]
    · rw [if_neg hF]
      have hcand : (envCandidates E).filter (fun e => decide (e ≠ "")) =
          E :: ((["PROD", "STAGING", "DEV", "TEST", "PRODUCTION"].filter
            (fun y => decide (y ≠ E))).filter (fun e => decide (e ≠ ""))) := by
        simp only [envCandidates, dedupKeepFirst, List.filter]
        rw [show (decide (E ≠ "")) = true from by simp [hE]]
      have hpred : (pyStartswith ("ENV_" ++ E) ("ENV_" ++ E ++ "_") ||
          decide ("ENV_" ++ E = "ENV_" ++ E)) = true := by simp
      have hfind : (((envCandidates E).filter (fun e => decide (e ≠ ""))).find?
          (fun e => pyStartswith ("ENV_" ++ E) ("ENV_" ++ e ++ "_") ||
            decide ("ENV_" ++ E = "ENV_" ++ e))) = some E := by
        rw [hcand]
        exact List.find?_cons_of_pos _ hpred
      dsimp only
      rw [hfind]
      have h1 : pyStartswith ("ENV_" ++ E) ("ENV_" ++ E ++ "_") = false := by
        rw [String.append_assoc]
        exact pyStartswith_strict_ext ("ENV_" ++ E) "_" (by decide)
      have h2 : pyStartswith ("ENV_" ++ E) ("ENV_" ++ E) = true := pyStartswith_self _
      dsimp only
      rw [if_neg (fun hne : E ≠ E => hne rfl)]
      simp only [h1, Bool.false_eq_true, if_false, h2, if_true, pyDropPre_self]
      decide

/-- The pattern contributions of a variable list, as collected by
`detect_file_patterns`. -/
theorem detect_file_patterns_eq (vars : Dict) (struct env : String) (h : struct ≠ "single") :
    detect_file_patterns vars struct env =
      (fun ps => if ps = [] then [".env.app"] else ps)
        (sortDedup ((dkeys vars).filterMap (patternOf (pyUpper env)))) := by
  unfold detect_file_patterns
  rw [if_neg h]

/-- C9: a variable named exactly `ENV_{E}`, where `E` is the upper-cased
active environment, contributes no component pattern to
`detect_file_patterns` — its suffix after prefix stripping is empty — so
removing it changes nothing, and alone it leaves the default `app`
pattern. -/
theorem C9_env_blob_contributes_nothing :
    (∀ (l1 l2 : Dict) (v struct env : String), struct ≠ "single" →
      detect_file_patterns (l1 ++ [("ENV_" ++ pyUpper env, v)] ++ l2) struct env =
        detect_file_patterns (l1 ++ l2) struct env) ∧
    (∀ (v struct env : String), struct ≠ "single" →
      detect_file_patterns [("ENV_" ++ pyUpper env, v)] struct env = [".env.app"]) := by
  have key : ∀ (l1 l2 : Dict) (v struct env : String), struct ≠ "single" →
      detect_file_patterns (l1 ++ [("ENV_" ++ pyUpper env, v)] ++ l2) struct env =
        detect_file_patterns (l1 ++ l2) struct env := by
    intro l1 l2 v struct env h
    rw [detect_file_patterns_eq _ _ _ h, detect_file_patterns_eq _ _ _ h]
    have : dkeys (l1 ++ [("ENV_" ++ pyUpper env, v)] ++ l2) =
        dkeys l1 ++ ["ENV_" ++ pyUpper env] ++ dkeys l2 := by
      simp [dkeys]
    rw [this]
    simp [List.filterMap_append, patternOf_env_blob, dkeys]
  refine ⟨key, fun v struct env h => ?_⟩
  have h1 := key [] [] v struct env h
  simp only [List.nil_append, List.append_nil] at h1
  rw [h1, detect_file_patterns_eq _ _ _ h]
  simp [dkeys, sortDedup]

/-- C9 witness: the general statement applied at a concrete input. -/
theorem C9_env_blob_contributes_nothing_witness :
    (("auto" : String) ≠ "single") ∧
      detect_file_patterns [("ENV_" ++ pyUpper "prod", "X=1")] "auto" "prod" = [".env.app"] :=
  ⟨by decide, C9_env_blob_contributes_nothing.2 "X=1" "auto" "prod" (by decide)⟩

theorem ltChars_total : ∀ (a b : List Char), a = b ∨ ltChars a b = true ∨ ltChars b a = true
  | [], [] => Or.inl rfl
  | [], _ :: _ => Or.inr (Or.inl rfl)
  | _ :: _, [] => Or.inr (Or.inr rfl)
  | a :: as, b :: bs => by
    rcases lt_trichotomy a b with h | h | h
    · exact Or.inr (Or.inl (by simp [ltChars, h]))
    · subst h
      rcases ltChars_total as bs with h2 | h2 | h2
      · exact Or.inl (by rw [h2])
      · exact Or.inr (Or.inl (by simp [ltChars, lt_irrefl, h2]))
      · exact Or.inr (Or.inr (by simp [ltChars, lt_irrefl, h2]))
    · exact Or.inr (Or.inr (by simp [ltChars, h]))

theorem strLt_total (a b : String) : a = b ∨ strLt a b = true ∨ strLt b a = true := by
  rcases ltChars_total a.data b.data with h | h | h
  · left
    cases a; cases b
    exact congrArg String.mk (by simpa using h)
  · exact Or.inr (Or.inl h)
  · exact Or.inr (Or.inr h)

/-- Comparison of a value against the head of a list, used to phrase strict
sortedness. -/
def ltHead (a : String) : List String → Bool
  | [] => true
  | b :: _ => strLt a b

/-- Strict sortedness of a string list under `strLt` (which also implies the
absence of duplicates). -/
def isStrictSorted : List String → Bool
  | [] => true
  | a :: l => ltHead a l && isStrictSorted l

theorem insertSorted_head (x : String) : ∀ (l : List String),
    (insertSorted x l).headD x = x ∨ (insertSorted x l).headD x = l.headD x
  | [] => Or.inl rfl
  | y :: ys => by
    unfold insertSorted
    by_cases h1 : x = y
    · rw [if_pos h1]; exact Or.inr rfl
    · rw [if_neg h1]
      by_cases h2 : strLt x y
      · rw [if_pos h2]; exact Or.inl rfl
      · rw [if_neg h2]; exact Or.inr rfl

theorem ltHead_of_headD (a x : String) (l : List String)
    (hne : l ≠ []) (hlt : strLt a (l.headD x) = true) : ltHead a l = true := by
  cases l with
  | nil => exact absurd rfl hne
  | cons b t => simpa [ltHead] using hlt

theorem insertSorted_ne_nil (x : String) (l : List String) : insertSorted x l ≠ [] := by
  cases l with
  | nil => simp [insertSorted]
  | cons y ys =>
    unfold insertSorted
    by_cases h1 : x = y
    · simp [h1]
    · rw [if_neg h1]
      by_cases h2 : strLt x y <;> simp [h2]

theorem isStrictSorted_insertSorted (x : String) :
    ∀ (l : List String), isStrictSorted l = true → isStrictSorted (insertSorted x l) = true
  | [], _ => by simp [insertSorted, isStrictSorted, ltHead]
  | y :: ys, h => by
    have hy : ltHead y ys = true := by
      simp only [isStrictSorted, Bool.and_eq_true] at h
      exact h.1
    have hys : isStrictSorted ys = true := by
      simp only [isStrictSorted, Bool.and_eq_true] at h
      exact h.2
    unfold insertSorted
    by_cases h1 : x = y
    · rw [if_pos h1]; exact h
    · rw [if_neg h1]
      by_cases h2 : strLt x y
      · rw [if_pos h2]
        rw [show isStrictSorted (x :: y :: ys) =
          (ltHead x (y :: ys) && isStrictSorted (y :: ys)) from rfl, Bool.and_eq_true]
        exact ⟨h2, h⟩
      · rw [if_neg h2]
        have hyx : strLt y x = true := by
          rcases strLt_total x y with he | hl | hg
          · exact absurd he h1
          · exact absurd hl h2
          · exact hg
        rw [show isStrictSorted (y :: insertSorted x ys) =
          (ltHead y (insertSorted x ys) && isStrictSorted (insertSorted x ys)) from rfl,
          Bool.and_eq_true]
        refine ⟨?_, isStrictSorted_insertSorted x ys hys⟩
        apply ltHead_of_headD y x _ (insertSorted_ne_nil x ys)
        rcases insertSorted_head x ys with hh | hh
        · rw [hh]; exact hyx
        · rw [hh]
          cases ys with
          | nil => exact hyx
          | cons b t => simpa [ltHead] using hy

theorem isStrictSorted_sortDedup (l : List String) : isStrictSorted (sortDedup l) = true := by
  suffices h : ∀ (l : List String) (acc : List String), isStrictSorted acc = true →
      isStrictSorted (l.foldl (fun acc x => insertSorted x acc) acc) = true by
    exact h l [] rfl
  intro l
  induction l with
  | nil => intro acc hacc; exact hacc
  | cons a l ih =>
    intro acc hacc
    exact ih (insertSorted a acc) (isStrictSorted_insertSorted a acc hacc)

theorem mem_insertSorted (z x : String) : ∀ (l : List String),
    z ∈ insertSorted x l → z = x ∨ z ∈ l
  | [] => by simp [insertSorted]
  | y :: ys => by
    intro hz
    unfold insertSorted at hz
    by_cases h1 : x = y
    · rw [if_pos h1] at hz; exact Or.inr hz
    · rw [if_neg h1] at hz
      by_cases h2 : strLt x y
      · rw [if_pos h2] at hz
        rcases List.mem_cons.mp hz with hh | hh
        · exact Or.inl hh
        · exact Or.inr hh
      · rw [if_neg h2] at hz
        rcases List.mem_cons.mp hz with hh | hh
        · exact Or.inr (hh ▸ List.mem_cons_self y ys)
        · rcases mem_insertSorted z x ys hh with h3 | h3
          · exact Or.inl h3
          · exact Or.inr (List.mem_cons_of_mem y h3)

theorem mem_sortDedup (z : String) (l : List String) : z ∈ sortDedup l → z ∈ l := by
  suffices h : ∀ (l acc : List String),
      z ∈ l.foldl (fun acc x => insertSorted x acc) acc → z ∈ acc ∨ z ∈ l by
    intro hz
    rcases h l [] hz with hh | hh
    · exact absurd hh (List.not_mem_nil z)
    · exact hh
  intro l
  induction l with
  | nil => intro acc h; exact Or.inl h
  | cons a l ih =>
    intro acc h
    rcases ih (insertSorted a acc) h with hh | hh
    · rcases mem_insertSorted z a acc hh with h3 | h3
      · exact Or.inr (h3 ▸ List.mem_cons_self a l)
      · exact Or.inl h3
    · exact Or.inr (List.mem_cons_of_mem a hh)

theorem isPrefixOf_append_self (l1 l2 : List Char) : l1.isPrefixOf (l1 ++ l2) = true := by
  induction l1 with
  | nil => simp [List.isPrefixOf]
  | cons a l ih => simp [List.isPrefixOf_cons₂, ih]

theorem pyStartswith_append (pre rest : String) : pyStartswith (pre ++ rest) pre = true := by
  unfold pyStartswith
  rw [String.data_append]
  exact isPrefixOf_append_self pre.data rest.data

/-- Every pattern contributed by the classification loop carries the
`.env.` filename convention. -/
theorem patternOf_startswith (E n p : String) (h : patternOf E n = some p) :
    pyStartswith p ".env." = true := by
  unfold patternOf at h
  dsimp only at h
  split at h
  · simp at h
  · split at h
    · simp at h
    · split at h
      · split at h
        · injection h with h2
          rw [← h2]
          exact pyStartswith_append ".env." _
        · simp at h
      · simp at h

/-- C5 counterexample: the claim expects `detect_file_patterns({}, "auto",
"prod")` to be exactly `{"app"}`, but the source returns patterns carrying
the filename convention — the fallback is `[".env.app"]`, not `["app"]`. -/
theorem C5_counterexample_env_app :
    detect_file_patterns [] "auto" "prod" = [".env.app"] ∧
      detect_file_patterns [] "auto" "prod" ≠ ["app"] := by
  constructor
  · decide
  · decide

/-- C5 (amended): on an empty variable mapping with structure `auto` and
environment `prod`, `detect_file_patterns` returns exactly `[".env.app"]`;
in general (for any non-`single` structure) the result is strictly sorted
and duplicate-free, never empty, equal to the default `[".env.app"]` when no
component names are discovered, and every returned pattern carries the
`.env.` filename convention. -/
theorem C5_detect_patterns_default_sorted :
    detect_file_patterns [] "auto" "prod" = [".env.app"] ∧
    (∀ (vars : Dict) (struct env : String), struct ≠ "single" →
      isStrictSorted (detect_file_patterns vars struct env) = true ∧
      detect_file_patterns vars struct env ≠ [] ∧
      (sortDedup ((dkeys vars).filterMap (patternOf (pyUpper env))) = [] →
        detect_file_patterns vars struct env = [".env.app"]) ∧
      (∀ p ∈ detect_file_patterns vars struct env, pyStartswith p ".env." = true)) := by
  refine ⟨by decide, ?_⟩
  intro vars struct env h
  rw [detect_file_patterns_eq _ _ _ h]
  by_cases hps : sortDedup ((dkeys vars).filterMap (patternOf (pyUpper env))) = []
  · rw [hps]
    refine ⟨by decide, by decide, fun _ => rfl, ?_⟩
    intro p hp
    simp only [if_true, List.mem_singleton] at hp
    rw [hp]
    decide
  · dsimp only
    rw [if_neg hps]
    refine ⟨isStrictSorted_sortDedup _, hps, fun hc => absurd hc hps, ?_⟩
    intro p hp
    have hmem := mem_sortDedup p _ hp
    rcases List.mem_filterMap.mp hmem with ⟨n, _, hn⟩
    exact patternOf_startswith (pyUpper env) n p hn

/-- C5 witness: the amended general statement applied at a concrete input. -/
theorem C5_detect_patterns_default_sorted_witness :
    (("nested" : String) ≠ "single") ∧
      isStrictSorted (detect_file_patterns [("ENV_DATABASE_HOST", "x")] "nested" "prod") = true :=
  ⟨by decide,
    (C5_detect_patterns_default_sorted.2 [("ENV_DATABASE_HOST", "x")] "nested" "prod"
      (by decide)).1⟩

theorem dlookup_foldl_keyfn (f : String → String) : ∀ (l : List String) (m : Dict) (k : String),
    dlookup (l.foldl (fun m q => dinsert m q (f q)) m) k =
      if k ∈ l then some (f k) else dlookup m k
  | [], m, k => by simp
  | q :: l, m, k => by
    rw [List.foldl_cons, dlookup_foldl_keyfn f l (dinsert m q (f q)) k]
    by_cases hk : k ∈ l
    · rw [if_pos hk, if_pos (List.mem_cons_of_mem q hk)]
    · rw [if_neg hk, dlookup_dinsert]
      by_cases he : k = q
      · rw [if_pos he, if_pos (he ▸ List.mem_cons_self q l), he]
      · rw [if_neg he, if_neg (by simp [he, hk])]

theorem isPrefixOf_single_cons (c d : Char) (l : List Char) :
    [c].isPrefixOf (d :: l) = (c == d) := by
  simp [List.isPrefixOf]

theorem string_eq_empty_of_data (b : String) (h : b.data = []) : b = "" := by
  cases b
  exact congrArg String.mk h

theorem append_ne_empty_right (a b : String) (hb : b ≠ "") : a ++ b ≠ "" := by
  intro h
  apply hb
  have hd : (a ++ b).data = [] := by rw [h]
  rw [String.data_append] at hd
  exact string_eq_empty_of_data b (List.append_eq_nil.mp hd).2

theorem pyEndswith_append_right (a b : String) (hb : b ≠ "") :
    pyEndswith (a ++ b) "/" = pyEndswith b "/" := by
  unfold pyEndswith
  rw [String.data_append, List.reverse_append]
  cases hbr : b.data.reverse with
  | nil =>
    have hb0 : b.data = [] := by
      have h2 := congrArg List.reverse hbr
      rw [List.reverse_reverse] at h2
      exact h2
    exact absurd (string_eq_empty_of_data b hb0) hb
  | cons c l => simp [List.cons_append, isPrefixOf_single_cons]

theorem pyJoin_of_shape (a b : String) (ha : pyEndswith a "/" = false) (ha2 : a ≠ "")
    (hb : pyIsAbs b = false) (hb2 : b ≠ "") : pyJoin a b = a ++ "/" ++ b := by
  unfold pyJoin
  rw [if_neg (by simp [hb]), if_neg hb2, if_neg (by simp [ha, ha2])]

/-- C8 counterexample: the claim expects the nested structure to place the
pattern `app` at `/srv/.envs/prod/.env.app`, but the source joins the raw
pattern string itself — pattern `app` lands at `/srv/.envs/prod/app` (the
`.env.` convention is already part of real pattern values). -/
theorem C8_counterexample_raw_pattern :
    determine_file_structure none [] "nested" ["app"] "prod" "/srv" =
        [("app", "/srv/.envs/prod/app")] ∧
      dlookup (determine_file_structure none [] "nested" ["app"] "prod" "/srv") "app" ≠
        some "/srv/.envs/prod/.env.app" := by
  constructor
  · decide
  · decide

/-- C8 (amended): with no custom base override configured, the nested
structure places every pattern `p` of the pattern list at
`{base}/.envs/{environment}/{p}` — so the spec's example path arises for the
real pattern value `.env.app`, not for the bare component name `app`. -/
theorem C8_nested_layout :
    determine_file_structure none [] "nested" [".env.app"] "prod" "/srv" =
        [(".env.app", "/srv/.envs/prod/.env.app")] ∧
    (∀ (environ : Dict) (patterns : List String) (p env base : String),
      base ≠ "" → pyEndswith base "/" = false →
      pyIsAbs env = false → env ≠ "" → pyEndswith env "/" = false →
      pyIsAbs p = false → p ≠ "" → p ∈ patterns →
      dlookup (determine_file_structure none environ "nested" patterns env base) p =
        some (base ++ "/.envs/" ++ env ++ "/" ++ p)) := by
  refine ⟨by decide, ?_⟩
  intro environ patterns p env base hb1 hb2 he1 he2 he3 hp1 hp2 hmem
  have j1 : pyJoin base ".envs" = base ++ "/" ++ ".envs" :=
    pyJoin_of_shape base ".envs" hb2 hb1 (by decide) (by decide)
  have hend1 : pyEndswith (base ++ "/" ++ ".envs") "/" = false := by
    rw [pyEndswith_append_right (base ++ "/") ".envs" (by decide)]
    decide
  have j2 : pyJoin (base ++ "/" ++ ".envs") env = base ++ "/" ++ ".envs" ++ "/" ++ env :=
    pyJoin_of_shape _ env hend1 (append_ne_empty_right _ _ (by decide)) he1 he2
  have hend2 : pyEndswith (base ++ "/" ++ ".envs" ++ "/" ++ env) "/" = false := by
    rw [pyEndswith_append_right (base ++ "/" ++ ".envs" ++ "/") env he2]
    exact he3
  have j3 : pyJoin (base ++ "/" ++ ".envs" ++ "/" ++ env) p =
      base ++ "/" ++ ".envs" ++ "/" ++ env ++ "/" ++ p :=
    pyJoin_of_shape _ p hend2 (append_ne_empty_right _ _ he2) hp1 hp2
  show dlookup
      (patterns.foldl
        (fun m q => dinsert m q (pyJoin (pyJoin (pyJoin base ".envs") env) q)) []) p = _
  rw [dlookup_foldl_keyfn (fun q => pyJoin (pyJoin (pyJoin base ".envs") env) q) patterns [] p,
    if_pos hmem, j1, j2, j3]
  congr 1
  apply congrArg String.mk
  simp only [String.data_append, List.append_assoc, List.cons_append, List.nil_append,
    List.singleton_append]

/-- C8 witness: the amended general statement applied at a concrete input. -/
theorem C8_nested_layout_witness :
    (("/srv" : String) ≠ "" ∧ (".env.app" : String) ∈ [".env.app"]) ∧
      dlookup (determine_file_structure none [] "nested" [".env.app"] "prod" "/srv") ".env.app" =
        some ("/srv" ++ "/.envs/" ++ "prod" ++ "/" ++ ".env.app") :=
  ⟨⟨by decide, by decide⟩,
    C8_nested_layout.2 [] [".env.app"] ".env.app" "prod" "/srv" (by decide) (by decide)
      (by decide) (by decide) (by decide) (by decide) (by decide)
      (List.mem_singleton.mpr rfl)⟩

theorem env_prefix_ne_ENV (X : String) : ("ENV_" ++ X) ≠ "ENV" := by
  intro h
  have hd := congrArg String.data h
  rw [String.data_append] at hd
  have hd2 : ('E' :: 'N' :: 'V' :: '_' :: X.data) = ['E', 'N', 'V'] := hd
  simp at hd2

theorem pyStartswith_prefix_self (pre s : String) : pyStartswith (pre ++ s) pre = true :=
  pyStartswith_append pre s

theorem pyDropn_env_front (X : String) : pyDropn ("ENV_" ++ X) 4 = X := by
  unfold pyDropn
  rw [String.data_append]
  rw [show (4 : Nat) = ("ENV_" : String).data.length from rfl, List.drop_left]

/-- C7 counterexample: the claim says a parsed sub-key already starting with
the component prefix case-insensitively is kept unchanged; but for
`ENV_APP = {"app_port": "1"}` the source compares `app_port` against the
upper-cased `APP_` case-sensitively, fails, and emits `APP_app_port` — the
lower-case sub-key is not kept unchanged. -/
theorem C7_counterexample_case_sensitive :
    merge_env_vars_by_priority [("ENV_APP", "\x7b\"app_port\": \"1\"\x7d")] "prod" ".env" "auto" =
        [("APP_app_port", "1")] ∧
      dlookup (merge_env_vars_by_priority [("ENV_APP", "\x7b\"app_port\": \"1\"\x7d")]
          "prod" ".env" "auto") "app_port" = none := by
  constructor
  · decide
  · decide

/-- C7 (amended): in the global-pattern merge, a bare variable `ENV_X` with
underscore-free `X` whose value parses to a non-empty mapping contributes
exactly the parsed pairs under the key transform `globalBlobKey`: sub-key `K`
becomes `X_K` unless `K` already starts with the upper-cased prefix
`X.upper()_` under a case-sensitive comparison, in which case `K` is used
unchanged. -/
theorem C7_global_blob_prefixing :
    ∀ (X v env fmt : String),
      pyContainsChar X '_' = false →
      pyStartswith ("ENV_" ++ X) "ENV_FILES_" = false →
      (globalEnvCandidates (pyUpper env)).any
        (fun e => e ≠ "" && pyStartswith ("ENV_" ++ X) ("ENV_" ++ e ++ "_")) = false →
      pyStartswith ("ENV_" ++ X) ("ENV_" ++ pyUpper env ++ "_") = false →
      parse_all_in_one_secret v fmt ≠ [] →
      merge_env_vars_by_priority [("ENV_" ++ X, v)] env ".env" fmt =
        (parse_all_in_one_secret v fmt).foldl
          (fun m q => dinsert m (globalBlobKey X q.1) q.2) [] := by
  intro X v env fmt h1 h2 h3 h4 h5
  unfold merge_env_vars_by_priority
  rw [if_pos rfl]
  have hbase : globalMergeBase [("ENV_" ++ X, v)] (pyUpper env) fmt [] =
      (parse_all_in_one_secret v fmt).foldl
        (fun m q => dinsert m (globalBlobKey X q.1) q.2) [] := by
    unfold globalMergeBase
    rw [List.foldl_cons, List.foldl_nil]
    rw [if_pos (pyStartswith_prefix_self "ENV_" X)]
    rw [if_neg (by simp [h2, env_prefix_ne_ENV X])]
    rw [if_neg (show ¬ _ = true from by rw [h3]; simp)]
    unfold globalInsert
    rw [pyDropn_env_front]
    rw [if_pos h5, if_neg (by simp [h1])]
  rw [hbase]
  unfold globalMergeEnv
  rw [List.foldl_cons, List.foldl_nil, if_neg (by simp [h4])]

/-- C7 witness: the amended statement applied at the counterexample's
input. -/
theorem C7_global_blob_prefixing_witness :
    pyContainsChar "APP" '_' = false ∧
      merge_env_vars_by_priority [("ENV_" ++ "APP", "\x7b\"app_port\": \"1\"\x7d")]
          "prod" ".env" "auto" =
        (parse_all_in_one_secret "\x7b\"app_port\": \"1\"\x7d" "auto").foldl
          (fun m q => dinsert m (globalBlobKey "APP" q.1) q.2) [] :=
  ⟨by decide, C7_global_blob_prefixing "APP" "\x7b\"app_port\": \"1\"\x7d" "prod" "auto"
    (by decide) (by decide) (by decide) (by decide) (by decide)⟩

/-- C3: `generate_env_files` never propagates an error past its own
boundary — for every configuration, ambient variable set and remote
executor it returns normally; and whenever the guarded body raises, the
driver returns the logged-error outcome instead of re-raising. -/
theorem C3_driver_never_raises :
    (∀ (cfg : Config) (environ : Dict) (conn : Conn),
      ∃ r, generate_env_files cfg environ conn = Except.ok r) ∧
    (∀ (cfg : Config) (environ : Dict) (conn : Conn) (e : String),
      cfg.ENV_FILES_GENERATE = true →
      generateEnvFilesBody cfg environ conn = Except.error e →
      generate_env_files cfg environ conn = Except.ok (GenOutcome.errorLogged e)) := by
  constructor
  · intro cfg environ conn
    unfold generate_env_files
    by_cases hg : (!cfg.ENV_FILES_GENERATE) = true
    · rw [if_pos hg]
      exact ⟨GenOutcome.skipped, rfl⟩
    · rw [if_neg hg]
      cases h : generateEnvFilesBody cfg environ conn with
      | ok r => exact ⟨r, rfl⟩
      | error e => exact ⟨GenOutcome.errorLogged e, rfl⟩
  · intro cfg environ conn e hgen he
    unfold generate_env_files
    rw [if_neg (by simp [hgen]), he]

/-- C3 witness: with generation enabled and a remote executor that fails on
every command, the body raises and the driver converts the failure into the
logged outcome. -/
theorem C3_driver_never_raises_witness :
    (Config.mk true "flat" none [] false "auto" "dev" "/srv").ENV_FILES_GENERATE = true ∧
      generate_env_files (Config.mk true "flat" none [] false "auto" "dev" "/srv")
          [("ENV_APP_PORT", "1")] (fun _ => Except.error "boom") =
        Except.ok (GenOutcome.errorLogged "boom") :=
  ⟨rfl, C3_driver_never_raises.2 (Config.mk true "flat" none [] false "auto" "dev" "/srv")
    [("ENV_APP_PORT", "1")] (fun _ => Except.error "boom") "boom" rfl rfl⟩

/-- C2 counterexample: under the explicit `json` format hint, a failed
structured parse does NOT fall back to the ENV heuristic — `A=1,` fails JSON
parsing and yields the empty mapping, although the ENV heuristic would
produce `A = 1` (only the `auto` hint degrades to the heuristic). -/
theorem C2_counterexample_json_hint_no_fallback :
    jsonDictTry (preprocess "A=1,") = none ∧
      parse_all_in_one_secret "A=1," "json" = [] ∧
      parse_all_in_one_secret "A=1," "env" = [("A", "1")] ∧
      parse_all_in_one_secret "A=1," "json" ≠ parse_all_in_one_secret "A=1," "env" := by
  refine ⟨by decide, by decide, by decide, by decide⟩

/-- C2 (amended): `parse_all_in_one_secret` is total for every input and
hint; a failed structured parse under the explicit `json` or `yaml` hints
yields the empty mapping without ENV fallback; only under `auto` do failed
structured attempts degrade to the ENV-format heuristic (when an equals sign
is present, otherwise the empty mapping); the `env` hint always produces the
heuristic result, which is the empty mapping on total parse failure. -/
theorem C2_parse_never_raises_fallbacks :
    (∀ (s : String) (sq : Bool), s ≠ "" → jsonDictTry (preprocess s) = none →
      parse_all_in_one_secret s "json" sq = []) ∧
    (∀ (s : String) (sq : Bool), s ≠ "" → yamlDictTry (preprocess s) = none →
      parse_all_in_one_secret s "yaml" sq = []) ∧
    (∀ (s : String) (sq : Bool), s ≠ "" →
      (if pyStartswith (preprocess s) "\x7b" && pyEndswith (preprocess s) "\x7d" then
        jsonDictTry (preprocess s) else none) = none →
      (if pyContainsChar (preprocess s) ':' then yamlAutoTry (preprocess s) else none) = none →
      parse_all_in_one_secret s "auto" sq =
        (if pyContainsChar (pyStrip s) '=' then envBranch (pyStrip s) sq else [])) ∧
    (∀ (s : String) (sq : Bool), parse_all_in_one_secret s "env" sq = envBranch (pyStrip s) sq) ∧
    (∀ (s : String) (sq : Bool), envKV sq (pyStrip s) = [] →
      parse_all_in_one_secret s "env" sq = []) := by
  have henv : ∀ (s : String) (sq : Bool),
      parse_all_in_one_secret s "env" sq = envBranch (pyStrip s) sq := by
    intro s sq
    by_cases hs : s = ""
    · subst hs
      cases sq <;> decide
    · unfold parse_all_in_one_secret
      rw [if_neg hs]
      simp
  refine ⟨?_, ?_, ?_, henv, ?_⟩
  · intro s sq hs hj
    unfold parse_all_in_one_secret
    rw [if_neg hs]
    dsimp only
    rw [hj]
    simp
  · intro s sq hs hy
    unfold parse_all_in_one_secret
    rw [if_neg hs]
    dsimp only
    rw [hy]
    simp
  · intro s sq hs hj hy
    unfold parse_all_in_one_secret
    rw [if_neg hs]
    dsimp only
    rw [if_pos rfl, hj, hy]
  · intro s sq hkv
    rw [henv s sq]
    unfold envBranch
    rw [hkv]
    rfl

/-- C2 witness: the amended statement applied at the counterexample's input
for the `json` hint, and at an input with an equals sign for `auto`. -/
theorem C2_parse_never_raises_fallbacks_witness :
    (("A=1," : String) ≠ "" ∧ jsonDictTry (preprocess "A=1,") = none) ∧
      parse_all_in_one_secret "A=1," "json" true = [] :=
  ⟨⟨by decide, by decide⟩,
    C2_parse_never_raises_fallbacks.1 "A=1," true (by decide) (by decide)⟩

/-- Characters that `json.dumps` serializes as themselves: printable ASCII
other than the quote and the backslash. -/
def plainChar (c : Char) : Bool :=
  (0x20 ≤ c.toNat && c.toNat ≤ 0x7e) && c ≠ quoteChar && c ≠ '\\'

/-- Strings all of whose characters are serialized verbatim. -/
def jsonPlain (s : String) : Bool := s.data.all plainChar

theorem jsonEscapeChar_plain (c : Char) (h : plainChar c = true) : jsonEscapeChar c = [c] := by
  simp only [plainChar, Bool.and_eq_true, decide_eq_true_eq] at h
  obtain ⟨⟨⟨hlo, hhi⟩, hq⟩, hb⟩ := h
  unfold jsonEscapeChar
  rw [if_neg hq, if_neg hb,
    if_neg (fun hh : c = '\n' => absurd (hh ▸ hlo) (by decide)),
    if_neg (fun hh : c = '\t' => absurd (hh ▸ hlo) (by decide)),
    if_neg (fun hh : c = '\r' => absurd (hh ▸ hlo) (by decide)),
    if_neg (fun hh : c = '\x08' => absurd (hh ▸ hlo) (by decide)),
    if_neg (fun hh : c = '\x0c' => absurd (hh ▸ hlo) (by decide)),
    if_neg (by simp; omega)]

theorem flatMap_escape_plain : ∀ (l : List Char), l.all plainChar = true →
    l.flatMap jsonEscapeChar = l
  | [], _ => rfl
  | c :: tl, h => by
    rw [List.all_cons, Bool.and_eq_true] at h
    rw [List.flatMap_cons, jsonEscapeChar_plain c h.1, flatMap_escape_plain tl h.2]
    rfl

theorem jsonEscape_plain (s : String) (h : jsonPlain s = true) : jsonEscape s = s.data :=
  flatMap_escape_plain s.data h

theorem skipWs_cons (c : Char) (cs : List Char) (h : isJsonWs c = false) :
    skipWs (c :: cs) = c :: cs := by
  simp [skipWs, List.dropWhile_cons, h]

theorem parseJString_plain : ∀ (content : List Char) (fuel : Nat) (rest : List Char),
    content.length + 1 ≤ fuel → content.all plainChar = true →
    parseJString fuel (content ++ quoteChar :: rest) = some (content, rest)
  | [], fuel, rest, hf, _ => by
    cases fuel with
    | zero => omega
    | succ f =>
      simp only [List.nil_append]
      unfold parseJString
      rw [if_pos rfl]
  | c :: tl, fuel, rest, hf, hall => by
    cases fuel with
    | zero => simp at hf
    | succ f =>
      rw [List.all_cons, Bool.and_eq_true] at hall
      have hc := hall.1
      simp only [plainChar, Bool.and_eq_true, decide_eq_true_eq] at hc
      obtain ⟨⟨⟨hlo, hhi⟩, hq⟩, hb⟩ := hc
      simp only [List.cons_append]
      unfold parseJString
      rw [if_neg hq, if_neg hb, if_neg (by omega : ¬c.toNat < 0x20),
        parseJString_plain tl f rest (by simpa using Nat.succ_le_succ_iff.mp hf) hall.2]
      rfl

/-- The serialized continuation after one member: nothing for the last pair,
or the `", "` separator and the remaining members. -/
def memberSep (tl : Dict) (Z : List Char) : List Char :=
  match tl with
  | [] => Z
  | _ :: _ => ',' :: ' ' :: (jsonMembers tl ++ Z)

theorem jsonMembers_cons_shape (p : String × String) (tl : Dict) (Z : List Char)
    (hk : jsonPlain p.1 = true) (hv : jsonPlain p.2 = true) :
    jsonMembers (p :: tl) ++ Z =
      quoteChar :: (p.1.data ++ quoteChar :: ':' :: ' ' :: quoteChar ::
        (p.2.data ++ quoteChar :: memberSep tl Z)) := by
  cases tl with
  | nil =>
    simp [jsonMembers, jsonMember, memberSep, jsonEscape_plain p.1 hk, jsonEscape_plain p.2 hv,
      List.append_assoc, List.cons_append]
  | cons q tl2 =>
    simp [jsonMembers, jsonMember, memberSep, jsonEscape_plain p.1 hk, jsonEscape_plain p.2 hv,
      List.append_assoc, List.cons_append]

theorem parseJMembers_dumps (pv : List Char → Option (PyVal × List Char))
    (hpv : ∀ (v : String) (r : List Char), jsonPlain v = true →
      pv (' ' :: quoteChar :: (v.data ++ quoteChar :: r)) = some (.str v, r)) :
    ∀ (prs : Dict) (fuel : Nat) (acc : List (String × PyVal)) (rest : List Char),
      prs.length + 1 ≤ fuel → prs ≠ [] →
      (∀ p ∈ prs, jsonPlain p.1 = true ∧ jsonPlain p.2 = true) →
      parseJMembers pv fuel acc (jsonMembers prs ++ '\x7d' :: rest) =
        some (acc ++ prs.map (fun p => (p.1, PyVal.str p.2)), rest)
  | [], _, _, _, _, hne, _ => absurd rfl hne
  | p :: tl, fuel, acc, rest, hf, _, hpl => by
    obtain ⟨hk, hv⟩ := hpl p (List.mem_cons_self p tl)
    cases fuel with
    | zero => simp at hf
    | succ f =>
      rw [jsonMembers_cons_shape p tl ('\x7d' :: rest) hk hv]
      unfold parseJMembers
      try dsimp only
      rw [if_pos rfl]
      have hstr1 := parseJString_plain p.1.data
        ((p.1.data ++ quoteChar :: ':' :: ' ' :: quoteChar ::
          (p.2.data ++ quoteChar :: memberSep tl ('\x7d' :: rest))).length + 1)
        (':' :: ' ' :: quoteChar ::
          (p.2.data ++ quoteChar :: memberSep tl ('\x7d' :: rest)))
        (by simp [List.length_append]) hk
      rw [hstr1]
      try dsimp only
      rw [skipWs_cons ':' _ (by decide)]
      try dsimp only
      rw [if_pos rfl]
      rw [hpv p.2 _ hv]
      try dsimp only
      cases tl with
      | nil =>
        unfold memberSep
        rw [skipWs_cons '\x7d' _ (by decide)]
        try dsimp only
        rw [if_neg (by decide), if_pos rfl]
        simp
      | cons q tl2 =>
        unfold memberSep
        rw [skipWs_cons ',' _ (by decide)]
        try dsimp only
        rw [if_pos rfl]
        have hskip : skipWs (' ' :: (jsonMembers (q :: tl2) ++ '\x7d' :: rest)) =
            jsonMembers (q :: tl2) ++ '\x7d' :: rest := by
          rw [jsonMembers_cons_shape q tl2 ('\x7d' :: rest) (hpl q (by simp)).1
            (hpl q (by simp)).2]
          simp [skipWs, List.dropWhile_cons, isJsonWs, quoteChar]
        rw [hskip]
        rw [parseJMembers_dumps pv hpv (q :: tl2) f (acc ++ [(p.1, PyVal.str p.2)]) rest
          (by simpa using Nat.succ_le_succ_iff.mp hf) (by simp)
          (fun x hx => hpl x (List.mem_cons_of_mem p hx))]
        simp

theorem jsonMember_length_pos (p : String × String) : 1 ≤ (jsonMember p).length := by
  simp [jsonMember]

theorem jsonMembers_length_ge : ∀ (prs : Dict), prs.length ≤ (jsonMembers prs).length
  | [] => by simp
  | [p] => by
    have := jsonMember_length_pos p
    simpa [jsonMembers] using this
  | p :: q :: tl => by
    have ih := jsonMembers_length_ge (q :: tl)
    have h1 := jsonMember_length_pos p
    simp only [jsonMembers, List.length_append, List.length_cons]
    simp only [List.length_cons] at ih
    omega

/-- The value parser accepts the serialized form `<space>"v"` of a plain
string value at any positive fuel. -/
theorem parseJValue_str (f : Nat) (v : String) (r : List Char) (hv : jsonPlain v = true) :
    parseJValue (f + 1) (' ' :: quoteChar :: (v.data ++ quoteChar :: r)) =
      some (.str v, r) := by
  unfold parseJValue
  rw [show skipWs (' ' :: quoteChar :: (v.data ++ quoteChar :: r)) =
      quoteChar :: (v.data ++ quoteChar :: r) from by
    simp [skipWs, List.dropWhile_cons, isJsonWs, quoteChar]]
  try dsimp only
  rw [if_neg (by decide), if_neg (by decide), if_pos rfl,
    parseJString_plain v.data ((v.data ++ quoteChar :: r).length + 1) r
      (by simp [List.length_append]) hv]
  rfl

theorem jsonLoads_dumps (m : Dict) (hnb : (jsonDumps m).data.length + 1 =
      ((jsonMembers m).length + 2) + 1)
    (hplain : ∀ p ∈ m, jsonPlain p.1 = true ∧ jsonPlain p.2 = true) :
    jsonLoads (jsonDumps m) = some (.obj (m.map (fun p => (p.1, PyVal.str p.2)))) := by
  unfold jsonLoads
  rw [hnb]
  have hdata : (jsonDumps m).data = '\x7b' :: (jsonMembers m ++ ['\x7d']) := rfl
  rw [hdata]
  unfold parseJValue
  rw [skipWs_cons '\x7b' _ (by decide)]
  try dsimp only
  rw [if_pos rfl]
  cases m with
  | nil =>
    rw [show jsonMembers [] ++ ['\x7d'] = ['\x7d'] from rfl,
      skipWs_cons '\x7d' _ (by decide)]
    try dsimp only
    rw [if_pos rfl]
    rfl
  | cons p tl =>
    have hk := (hplain p (List.mem_cons_self p tl)).1
    have hv := (hplain p (List.mem_cons_self p tl)).2
    have hshape := jsonMembers_cons_shape p tl ['\x7d'] hk hv
    rw [hshape, skipWs_cons quoteChar _ (by decide)]
    try dsimp only
    rw [if_neg (by decide)]
    rw [← hshape]
    rw [parseJMembers_dumps (parseJValue ((jsonMembers (p :: tl)).length + 2))
      (fun v2 r hv2 => parseJValue_str ((jsonMembers (p :: tl)).length + 1) v2 r hv2)
      (p :: tl) ((jsonMembers (p :: tl) ++ ['\x7d']).length + 1) [] []
      (by
        have h2 := jsonMembers_length_ge (p :: tl)
        simp only [List.length_append, List.length_cons] at h2 ⊢
        omega)
      (by simp) hplain]
    rfl

theorem replaceCore_no_head : ∀ (fuel : Nat) (cs pat rep : List Char) (c0 : Char),
    pat.head? = some c0 → c0 ∉ cs → replaceCore fuel cs pat rep = cs
  | 0, cs, _, _, _, _, _ => by cases cs <;> rfl
  | _ + 1, [], _, _, _, _, _ => rfl
  | fuel + 1, c :: cs, pat, rep, c0, hh, hm => by
    unfold replaceCore
    cases pat with
    | nil => simp at hh
    | cons p0 pt =>
      injection hh with hh
      rw [if_neg (by
        simp only [List.isPrefixOf_cons₂]
        intro hpre
        rw [Bool.and_eq_true, beq_iff_eq] at hpre
        apply hm
        rw [← hh, hpre.1]
        exact List.mem_cons_self c cs)]
      rw [replaceCore_no_head fuel cs (p0 :: pt) rep c0 (by simp [hh])
        (fun h2 => hm (List.mem_cons_of_mem c h2))]

theorem no_backslash_of_plain (s : String) (h : jsonPlain s = true) : '\\' ∉ s.data := by
  intro hm
  have := List.all_eq_true.mp h _ hm
  simp [plainChar] at this

theorem jsonMember_no_backslash (p : String × String) (hk : jsonPlain p.1 = true)
    (hv : jsonPlain p.2 = true) : '\\' ∉ jsonMember p := by
  unfold jsonMember
  rw [jsonEscape_plain p.1 hk, jsonEscape_plain p.2 hv]
  intro hm
  simp only [List.mem_cons, List.mem_append, List.mem_singleton, quoteChar] at hm
  simp at hm
  rcases hm with h | h
  · exact no_backslash_of_plain p.1 hk h
  · exact no_backslash_of_plain p.2 hv h

theorem jsonMembers_no_backslash : ∀ (prs : Dict),
    (∀ p ∈ prs, jsonPlain p.1 = true ∧ jsonPlain p.2 = true) → '\\' ∉ jsonMembers prs
  | [], _ => by simp [jsonMembers]
  | [p], hpl => by
    have h := hpl p (by simp)
    simpa [jsonMembers] using jsonMember_no_backslash p h.1 h.2
  | p :: q :: tl, hpl => by
    have h := hpl p (by simp)
    have ih := jsonMembers_no_backslash (q :: tl) (fun x hx => hpl x (by simp [hx]))
    have hmem := jsonMember_no_backslash p h.1 h.2
    intro hm
    simp only [jsonMembers, List.append_assoc, List.mem_append, List.mem_cons] at hm
    rcases hm with h1 | h1
    · exact hmem h1
    · simp at h1
      exact ih h1

theorem pyStripL_no_ws_ends (cs : List Char) (c0 c1 : Char) (mid : List Char)
    (h : cs = c0 :: (mid ++ [c1])) (h0 : pyIsSpace c0 = false) (h1 : pyIsSpace c1 = false) :
    pyStripL cs = cs := by
  subst h
  unfold pyStripL
  rw [List.dropWhile_cons, h0]
  simp only [Bool.false_eq_true, if_false]
  rw [show (c0 :: (mid ++ [c1])).reverse = c1 :: (mid.reverse ++ [c0]) from by
    simp [List.reverse_cons, List.reverse_append]]
  rw [List.dropWhile_cons, h1]
  simp only [Bool.false_eq_true, if_false]
  rw [show (c1 :: (mid.reverse ++ [c0])).reverse = c0 :: (mid ++ [c1]) from by
    simp [List.reverse_cons, List.reverse_append]]

theorem jsonDumps_strip (m : Dict) : pyStrip (jsonDumps m) = jsonDumps m := by
  unfold pyStrip
  rw [pyStripL_no_ws_ends (jsonDumps m).data '\x7b' '\x7d' (jsonMembers m)
    (by simp [jsonDumps]) (by decide) (by decide)]

theorem jsonDumps_preprocess (m : Dict)
    (hplain : ∀ p ∈ m, jsonPlain p.1 = true ∧ jsonPlain p.2 = true) :
    preprocess (jsonDumps m) = jsonDumps m := by
  unfold preprocess
  rw [jsonDumps_strip m]
  unfold pyReplace
  rw [replaceCore_no_head _ (jsonDumps m).data ("\\n".data) ("\n".data) '\\' rfl
    (by
      intro hm
      have hdata : (jsonDumps m).data = '\x7b' :: (jsonMembers m ++ ['\x7d']) := rfl
      rw [hdata] at hm
      rcases List.mem_cons.mp hm with h | h
      · exact absurd h (by decide)
      rcases List.mem_append.mp h with h | h
      · exact jsonMembers_no_backslash m hplain h
      · exact absurd h (by decide))]

theorem dinsert_append_not_mem : ∀ (acc : Dict) (k v : String), k ∉ dkeys acc →
    dinsert acc k v = acc ++ [(k, v)]
  | [], _, _, _ => rfl
  | p :: acc, k, v, hk => by
    unfold dinsert
    rw [if_neg (fun hh => hk (show k ∈ dkeys (p :: acc) from by
      simp only [dkeys, List.map_cons]
      exact List.mem_cons.mpr (Or.inl hh.symm)))]
    rw [dinsert_append_not_mem acc k v (fun hh => hk (show k ∈ dkeys (p :: acc) from by
      simp only [dkeys, List.map_cons]
      exact List.mem_cons_of_mem p.1 hh))]
    rfl

theorem foldl_dinsert_nodup : ∀ (l acc : Dict),
    (∀ q ∈ l, q.1 ∉ dkeys acc) → (dkeys l).Nodup →
    l.foldl (fun m p => dinsert m p.1 p.2) acc = acc ++ l
  | [], acc, _, _ => by simp
  | p :: tl, acc, hdis, hnd => by
    rw [List.foldl_cons, dinsert_append_not_mem acc p.1 p.2 (hdis p (List.mem_cons_self p tl))]
    have hpair := List.nodup_cons.mp (show (p.1 :: dkeys tl).Nodup from hnd)
    have hnd2 : (dkeys tl).Nodup := hpair.2
    have hhead : p.1 ∉ dkeys tl := hpair.1
    rw [foldl_dinsert_nodup tl (acc ++ [p])
      (fun q hq => by
        rw [dkeys, List.map_append]
        intro hmem
        rcases List.mem_append.mp hmem with h | h
        · exact hdis q (List.mem_cons_of_mem p hq) h
        · simp only [dkeys, List.map_cons, List.map_nil, List.mem_singleton] at h
          exact hhead (h ▸ List.mem_map_of_mem (fun r => r.1) hq))
      hnd2]
    simp

theorem pyDictOfPairs_strPairs (m : Dict) (hnd : (dkeys m).Nodup) :
    pyDictOfPairs (m.map (fun p => (p.1, PyVal.str p.2))) = m := by
  unfold pyDictOfPairs
  rw [List.foldl_map]
  have : ∀ (acc : Dict) (p : String × String),
      dinsert acc ((fun p => (p.1, PyVal.str p.2)) p).1
        (pyStr ((fun p => (p.1, PyVal.str p.2)) p).2) = dinsert acc p.1 p.2 := by
    intro acc p
    rfl
  rw [show (fun (acc : Dict) (p : String × String) =>
      dinsert acc ((fun p => (p.1, PyVal.str p.2)) p).1
        (pyStr ((fun p => (p.1, PyVal.str p.2)) p).2)) =
      (fun (acc : Dict) (p : String × String) => dinsert acc p.1 p.2) from
    funext fun acc => funext fun p => this acc p]
  rw [foldl_dinsert_nodup m [] (by simp [dkeys]) hnd]
  rfl

/-- C6 counterexample: the round trip fails for a mapping whose value
contains a newline — `json.dumps` escapes it as the two characters `\n`,
the parser's escaped-newline normalisation turns that back into a raw
newline inside the serialized text, and strict `json.loads` then rejects
the control character, so the parse yields the empty mapping. -/
theorem C6_counterexample_newline_value :
    parse_all_in_one_secret (jsonDumps [("A", "x" ++ "\n" ++ "y")]) "json" = [] ∧
      parse_all_in_one_secret (jsonDumps [("A", "x" ++ "\n" ++ "y")]) "json" ≠
        [("A", "x" ++ "\n" ++ "y")] := by
  constructor
  · decide
  · decide

/-- C6 (amended): serializing a finite string-to-string mapping as a JSON
object and parsing it back with format hint `json` yields the original
mapping, provided the keys are distinct and all keys and values consist of
printable ASCII characters needing no JSON escaping (no quote, no backslash,
no control characters) — characters whose escapes survive the parser's
escaped-newline preprocessing. -/
theorem C6_json_roundtrip_plain :
    ∀ (m : Dict), (dkeys m).Nodup →
      (∀ p ∈ m, jsonPlain p.1 = true ∧ jsonPlain p.2 = true) →
      parse_all_in_one_secret (jsonDumps m) "json" = m := by
  intro m hnd hplain
  have hne : jsonDumps m ≠ "" := by
    intro h
    have := congrArg String.data h
    rw [show (jsonDumps m).data = '\x7b' :: (jsonMembers m ++ ['\x7d']) from rfl] at this
    simp at this
  unfold parse_all_in_one_secret
  rw [if_neg hne]
  dsimp only
  rw [if_neg (by decide), if_pos rfl, jsonDumps_preprocess m hplain]
  unfold jsonDictTry
  rw [jsonLoads_dumps m (by simp [jsonDumps]) hplain]
  dsimp only
  rw [pyDictOfPairs_strPairs m hnd]
  rfl

/-- C6 witness: the amended round trip applied at a concrete two-entry
mapping. -/
theorem C6_json_roundtrip_plain_witness :
    (dkeys [("A", "1"), ("B", "two words")]).Nodup ∧
      parse_all_in_one_secret (jsonDumps [("A", "1"), ("B", "two words")]) "json" =
        [("A", "1"), ("B", "two words")] :=
  ⟨by decide, C6_json_roundtrip_plain [("A", "1"), ("B", "two words")] (by decide)
    (by decide)⟩

end MetalDeploy
